import Mathlib

/-!
Verification of the flight-search orchestration core of the
google-flights-mcp repository (Python sources under
src/mcp_server_google_flights and src/mcp_server_amadeus).

Each Lean definition below is a shallow embedding of one Python function,
translated line by line from the source.  Python integers are Int, Python
lists are List, Python dicts are association lists with unique keys,
Python None / absent keys are Option, and raised exceptions are Except /
Option failure values.  Theorems at the end of the file settle the claims
about these functions.
-/

namespace FlightsMCP

/-! ## Python price values

A price value observed at runtime is None, an int, a str, or some other
object (fast-flights yields strings such as "$268", SerpApi yields ints).
Floats do not occur in these payloads and are not modelled.
-/

inductive PriceVal where
  | pnone : PriceVal
  | pint : Int → PriceVal
  | pstr : String → PriceVal
  | pother : PriceVal
deriving DecidableEq, Repr

/-- Characters removed by price.replace in parse_price:
the dollar sign and the thousands separator. -/
def stripDollarCommas (s : String) : String :=
  String.mk (s.data.filter (fun c => !(c == '$' || c == ',')))

/-- Python str.isspace-style characters recognised while trimming the
argument of int(). -/
def isPySpace (c : Char) : Bool :=
  c == ' ' || c == '\t' || c == '\n' || c == '\r'

/-- Trim leading and trailing whitespace from a character list. -/
def trimChars (cs : List Char) : List Char :=
  ((cs.dropWhile isPySpace).reverse.dropWhile isPySpace).reverse

/-- Value of a non-empty all-digit character list; none otherwise. -/
def digitsToNat (cs : List Char) : Option Nat :=
  match cs with
  | [] => none
  | _ =>
    if cs.all Char.isDigit then
      some (cs.foldl (fun n c => 10 * n + (c.toNat - 48)) 0)
    else
      none

/-- Model of Python int(s) on an ASCII decimal literal: surrounding
whitespace is ignored, one optional sign, then digits; anything else
raises ValueError, modelled as none. -/
def pyParseInt (s : String) : Option Int :=
  match trimChars s.data with
  | '-' :: rest => (digitsToNat rest).map (fun n => -(n : Int))
  | '+' :: rest => (digitsToNat rest).map (fun n => (n : Int))
  | cs => (digitsToNat cs).map (fun n => (n : Int))

/-- Result of parse_price: an integer, or the float(inf) sentinel used
for invalid prices. -/
inductive ParsedPrice where
  | fin : Int → ParsedPrice
  | inf : ParsedPrice
deriving DecidableEq, Repr

/-- Embedding of parse_price (mcp_server_google_flights/server.py).
None yields inf; an int is returned as is; a str is stripped of dollar
signs and commas and parsed by int(), a ValueError yielding inf; any
other value yields inf. -/
def parse_price (price : PriceVal) : ParsedPrice :=
  match price with
  | .pnone => .inf
  | .pint n => .fin n
  | .pstr s =>
    match pyParseInt (stripDollarCommas s) with
    | some n => .fin n
    | none => .inf
  | .pother => .inf

/-- Python comparison a < b on parsed prices: every int is below
float(inf), and inf < inf is false. -/
def ppLt (a b : ParsedPrice) : Bool :=
  match a, b with
  | .fin x, .fin y => x < y
  | .fin _, .inf => true
  | .inf, _ => false

/-- Fold implementing Python min(xs, key=...) starting from a first
element: the running best is replaced only when a later element is
strictly smaller, so the first minimum wins ties. -/
def minFold (key : α → ParsedPrice) (x : α) (xs : List α) : α :=
  xs.foldl (fun best y => if ppLt (key y) (key best) then y else best) x

/-- Python min(xs, key=...): raises on an empty list (none); otherwise
the first element whose key is minimal. -/
def pyMinByKey (key : α → ParsedPrice) : List α → Option α
  | [] => none
  | x :: xs => some (minFold key x xs)

/-! ## format_duration and small string helpers -/

/-- Embedding of format_duration on an int argument (the only branch the
normalizers reach): minutes to a human-readable string, with Python
floor division and modulo. -/
def format_duration (minutes : Int) : String :=
  let hours := Int.fdiv minutes 60
  let mins := Int.fmod minutes 60
  if hours > 0 ∧ mins > 0 then toString hours ++ "h " ++ toString mins ++ "m"
  else if hours > 0 then toString hours ++ "h"
  else toString mins ++ "m"

/-- Python ", ".join. -/
def joinCommaSpace (parts : List String) : String :=
  String.intercalate ", " parts

/-! ## SerpApi adapter: normalize_serpapi_flight

Embedding of normalize_serpapi_flight
(mcp_server_google_flights/server.py).  A raw SerpApi flight carries a
"flights" array of flown segments plus price, total_duration and type
fields; carbon_emissions and layovers are display-only data that no
claim touches and are not carried in the model.
-/

/-- The departure_airport / arrival_airport sub-objects of a raw SerpApi
segment, read with .get so each field may be absent. -/
structure SerpAirport where
  id : Option String
  name : Option String
  time : Option String
deriving DecidableEq, Repr

/-- One entry of the raw "flights" array of a SerpApi flight. -/
structure SerpRawSegment where
  departure_airport : SerpAirport
  arrival_airport : SerpAirport
  duration : Option Int
  airplane : Option String
  airline : Option String
  flight_number : Option String
deriving DecidableEq, Repr

/-- One normalized segment_info dict built by normalize_serpapi_flight. -/
structure NormSegment where
  segment_number : Nat
  from_code : Option String
  from_name : Option String
  to_code : Option String
  to_name : Option String
  departure : Option String
  arrival : Option String
  duration : String
  plane_type : Option String
  airline : Option String
  flight_number : Option String
deriving DecidableEq, Repr

/-- A raw SerpApi flight object (the fields normalize_serpapi_flight
reads). -/
structure SerpFlightData where
  flights : List SerpRawSegment
  price : Option PriceVal
  total_duration : Option Int
  flight_type : Option String
deriving DecidableEq, Repr

/-- The normalized flight dict shared by both adapters. -/
structure NormalizedFlight where
  price : Option PriceVal
  airlines : Option String
  flight_type : Option String
  departure_time : Option String
  arrival_time : Option String
  total_duration : Option String
  stops : Int
  segments : List NormSegment
  source : String
  is_best_flight : Bool
deriving DecidableEq, Repr

/-- enumerate(raw_flights): map with the running index. -/
def mapWithIndex (f : Nat → α → β) : Nat → List α → List β
  | _, [] => []
  | i, x :: xs => f i x :: mapWithIndex f (i + 1) xs

/-- The segment_info dict built for segment number i+1. -/
def normalizeSegment (i : Nat) (s : SerpRawSegment) : NormSegment :=
  { segment_number := i + 1
    from_code := s.departure_airport.id
    from_name := s.departure_airport.name
    to_code := s.arrival_airport.id
    to_name := s.arrival_airport.name
    departure := s.departure_airport.time
    arrival := s.arrival_airport.time
    duration := toString (s.duration.getD 0) ++ "m"
    plane_type := s.airplane
    airline := s.airline
    flight_number := s.flight_number }

/-- Embedding of normalize_serpapi_flight.  stops is
len(segments) - 1 when segments is non-empty and 0 otherwise; the
overall times come from the first and last segment; airline names are
the comma join of the truthy per-segment airlines. -/
def normalize_serpapi_flight (flight_data : SerpFlightData) (is_best : Bool) :
    NormalizedFlight :=
  let segments := mapWithIndex normalizeSegment 0 flight_data.flights
  let num_stops : Int :=
    if segments.length > 0 then (segments.length : Int) - 1 else 0
  let overall_departure :=
    match segments with
    | [] => none
    | s :: _ => s.departure
  let overall_arrival :=
    match segments.getLast? with
    | none => none
    | some s => s.arrival
  let airline_names :=
    joinCommaSpace
      (((flight_data.flights.filterMap (fun s => s.airline)).filter
        (fun a => a ≠ "")))
  let total_duration_min := flight_data.total_duration.getD 0
  { price := flight_data.price
    airlines := if airline_names = "" then none else some airline_names
    flight_type := flight_data.flight_type
    departure_time := overall_departure
    arrival_time := overall_arrival
    total_duration :=
      if total_duration_min ≠ 0 then some (format_duration total_duration_min)
      else none
    stops := num_stops
    segments := segments
    source := "SerpApi"
    is_best_flight := is_best }

/-! ## fast-flights v2.2 adapter: _flight_to_dict_v2 -/

/-- A duration attribute of a v2.2 Flight object: absent/None, a number,
or a pre-formatted string. -/
inductive PyDuration where
  | dNone : PyDuration
  | dInt : Int → PyDuration
  | dStr : String → PyDuration
deriving DecidableEq, Repr

/-- The attributes of a fast-flights v2.2 Flight object that
_flight_to_dict_v2 reads via getattr. -/
structure V2Flight where
  price : Option PriceVal
  name : Option String
  is_best : Bool
  departure : Option String
  arrival : Option String
  duration : PyDuration
  stops : Option Int
deriving DecidableEq, Repr

/-- The non-compact dict produced by _flight_to_dict_v2. -/
structure V2Record where
  price : Option PriceVal
  airlines : Option String
  is_best : Bool
  departure_time : Option String
  arrival_time : Option String
  total_duration : Option String
  stops : Option Int
  flight_type : String
  segments : List NormSegment
deriving DecidableEq, Repr

/-- Python str(x) if x else None for an optional string: None and the
empty (falsy) string give None. -/
def pyStrOrNone (o : Option String) : Option String :=
  match o with
  | none => none
  | some s => if s = "" then none else some s

/-- Embedding of _flight_to_dict_v2 in non-compact mode.  The price,
airline name and stop count are passed through unchanged, flight_type
is the fixed string "Unknown", and segments is always the empty list
because v2.2 flight objects expose no segment detail. -/
def flight_to_dict_v2 (flight : V2Flight) : V2Record :=
  let formatted_duration :=
    match flight.duration with
    | .dInt n => some (format_duration n)
    | .dStr s => if s ≠ "" then some s else none
    | .dNone => none
  { price := flight.price
    airlines := flight.name
    is_best := flight.is_best
    departure_time := pyStrOrNone flight.departure
    arrival_time := pyStrOrNone flight.arrival
    total_duration := formatted_duration
    stops := flight.stops
    flight_type := "Unknown"
    segments := [] }

/-- A price value that is still a formatted currency string: a str
containing a dollar sign. -/
def isFormattedCurrencyString (p : PriceVal) : Bool :=
  match p with
  | .pstr s => s.data.any (fun c => c == '$')
  | _ => false

/-! ## Round-trip reconciler: combine_outbound_and_return_flights -/

/-- The fields of a normalized flight dict that
combine_outbound_and_return_flights reads.  price is read with
.get("price", 0), so an absent key (none here) defaults to the int 0;
airlines is read with .get("airlines", ""). -/
structure CombineInputFlight where
  price : Option PriceVal
  airlines : Option String
  segments : List NormSegment
  departure_time : Option String
  arrival_time : Option String
  is_best_flight : Bool
deriving DecidableEq, Repr

/-- The combined round-trip dict built on success. -/
structure CombinedRoundTrip where
  price : Int
  airlines : String
  flight_type : String
  departure_time : Option String
  arrival_time : Option String
  total_duration : Option String
  stops : Int
  segments : List NormSegment
  outbound_details : CombineInputFlight
  return_details : CombineInputFlight
  source : String
  is_best_flight : Bool
deriving DecidableEq, Repr

/-- combine_outbound_and_return_flights either returns the combined
dict or, when any exception is raised inside the try block (ValueError
from int() on a malformed price string, TypeError from adding None or a
non-numeric object), falls into the except handler and returns an error
dict. -/
inductive CombineResult where
  | combined : CombinedRoundTrip → CombineResult
  | errorResult : CombineResult
deriving DecidableEq, Repr

/-- Resolution of one price operand inside
combine_outbound_and_return_flights: an int stays as is; a str is
stripped of dollar signs and commas and parsed by int(), raising
ValueError (error) when malformed; None and any other non-numeric
object make the later addition raise TypeError (error). -/
def coerceCombinePrice (p : PriceVal) : Except Unit Int :=
  match p with
  | .pint n => .ok n
  | .pstr s =>
    match pyParseInt (stripDollarCommas s) with
    | some n => .ok n
    | none => .error ()
  | .pnone => .error ()
  | .pother => .error ()

/-- The all_airlines string: outbound joined with the return airlines
unless they are equal. -/
def combineAirlines (outbound_airlines return_airlines : String) : String :=
  if return_airlines ≠ outbound_airlines then
    outbound_airlines ++ ", " ++ return_airlines
  else outbound_airlines

/-- Embedding of combine_outbound_and_return_flights
(mcp_server_google_flights/server.py).  The combined price is the sum
of the two resolved prices, segments are outbound followed by return,
total_duration is left None, and stops is recomputed from the combined
segment list. -/
def combine_outbound_and_return_flights
    (outbound_flight return_flight : CombineInputFlight) : CombineResult :=
  match coerceCombinePrice (outbound_flight.price.getD (.pint 0)),
      coerceCombinePrice (return_flight.price.getD (.pint 0)) with
  | .ok outbound_price, .ok return_price =>
    let all_segments := outbound_flight.segments ++ return_flight.segments
    .combined
      { price := outbound_price + return_price
        airlines :=
          combineAirlines (outbound_flight.airlines.getD "")
            (return_flight.airlines.getD "")
        flight_type := "Round trip"
        departure_time := outbound_flight.departure_time
        arrival_time := return_flight.arrival_time
        total_duration := none
        stops :=
          if all_segments.length > 0 then (all_segments.length : Int) - 1
          else 0
        segments := all_segments
        outbound_details := outbound_flight
        return_details := return_flight
        source := "SerpApi (combined)"
        is_best_flight := outbound_flight.is_best_flight }
  | _, _ => .errorResult

/-- Claim-side reading of the numeric value of a flight price field: an
absent key counts as 0, an int is itself, and a formatted currency
string denotes its stripped integer value; None and non-numeric objects
have no numeric value. -/
def priceNumberOfField (p : Option PriceVal) : Option Int :=
  match p with
  | none => some 0
  | some (.pint n) => some n
  | some (.pstr s) => pyParseInt (stripDollarCommas s)
  | some .pnone => none
  | some .pother => none

/-! ## One-way search: cheapest-only processing and source fallback -/

/-- The min key used by search_one_way_flights:
parse_price(f.get("price")), where .get returns None for an absent
key. -/
def flightPriceKey (f : NormalizedFlight) : ParsedPrice :=
  parse_price (f.price.getD .pnone)

/-- Embedding of the result-processing step of search_one_way_flights
after a successful SerpApi conversion: with return_cheapest_only and a
non-empty list, exactly the min-by-parsed-price flight; otherwise the
list truncated to max_results when that is positive. -/
def processOneWayFlights (flights_data : List NormalizedFlight)
    (return_cheapest_only : Bool) (max_results : Int) :
    List NormalizedFlight :=
  if return_cheapest_only ∧ flights_data.length > 0 then
    match pyMinByKey flightPriceKey flights_data with
    | some cheapest_flight => [cheapest_flight]
    | none => []
  else if max_results > 0 then flights_data.take max_results.toNat
  else flights_data

/-- Which source a one-way search is answered from. -/
inductive OneWaySourceUsed where
  | serpapiSource : OneWaySourceUsed
  | fastflightsSource : OneWaySourceUsed
deriving DecidableEq, Repr

/-- Embedding of the source-selection control flow of
search_one_way_flights (mcp_server_google_flights/server.py): when
SerpApi is enabled and returns a truthy response (modelled some fs,
with fs the converted flight list), the SerpApi answer is used only if
the converted list is non-empty; an empty conversion logs "SerpApi
returned no flights, falling back to fast-flights" and proceeds to
fast-flights, as does a falsy or failed SerpApi response (none) or
SerpApi being disabled. -/
def search_one_way_flights_source (serpapi_enabled : Bool)
    (serpapi_flights : Option (List NormalizedFlight)) : OneWaySourceUsed :=
  match serpapi_enabled, serpapi_flights with
  | true, some flights_data =>
    if flights_data.length > 0 then .serpapiSource else .fastflightsSource
  | true, none => .fastflightsSource
  | false, _ => .fastflightsSource

/-- Which branch hybrid_flight_search answers from: the SerpAPI
response (with its flight list, possibly empty) or the fast-flights
fallback. -/
inductive HybridResponse where
  | serpResponse : List NormalizedFlight → HybridResponse
  | fastResponse : HybridResponse
deriving DecidableEq, Repr

/-- Embedding of the routing of hybrid_flight_search
(mcp_server_google_flights/hybrid_search.py): when SerpAPI is available
the client call either raises (error, caught and logged, falling
through to fast-flights) or returns a parsed flight list that is
answered as the serpapi-tagged response even when empty; when SerpAPI
is unavailable fast-flights is used directly. -/
def hybrid_flight_search_route (serpapi_available : Bool)
    (serp_call : Except String (List NormalizedFlight)) : HybridResponse :=
  if serpapi_available then
    match serp_call with
    | .ok flights => .serpResponse flights
    | .error _ => .fastResponse
  else .fastResponse

/-! ## Batch rate governor: search_round_trips_in_date_range

The date window is modelled by its size w: date number i stands for
start_date + i days, so the window is the list range w and the stay
length of a pair (i, j) is j - i.  The enumeration, stay filtering,
pagination and ceiling check below follow the Python line by line; the
scraping loop itself (one request per surviving pair) is reached only
in the accepted branch.
-/

def MAX_DATE_COMBINATIONS : Nat := 30

/-- The stay-length filter: valid_stay stays true unless a given
min_stay_days exceeds the stay or a given max_stay_days is below it. -/
def validStay (min_stay_days max_stay_days : Option Nat) (stay : Nat) : Bool :=
  (match min_stay_days with
   | some m => decide (m ≤ stay)
   | none => true) &&
  (match max_stay_days with
   | some m => decide (stay ≤ m)
   | none => true)

/-- Concatenation of mapped lists (the nested Python for loops). -/
def listFlatMap (f : α → List β) : List α → List β
  | [] => []
  | x :: xs => f x ++ listFlatMap f xs

/-- The date_pairs_to_check enumeration: every (depart, return) with
return drawn from the tail of the window starting at depart, kept when
the stay passes the constraints, in loop order. -/
def datePairs (w : Nat) (min_stay_days max_stay_days : Option Nat) :
    List (Nat × Nat) :=
  listFlatMap
    (fun i =>
      (((List.range w).drop i).filter
          (fun j => validStay min_stay_days max_stay_days (j - i))).map
        (fun j => (i, j)))
    (List.range w)

/-- Python pairs[offset : offset + limit] if limit > 0 else
pairs[offset:], for a non-negative offset. -/
def paginatePairs (pairs : List (Nat × Nat)) (offset : Nat) (limit : Int) :
    List (Nat × Nat) :=
  if limit > 0 then (pairs.drop offset).take limit.toNat
  else pairs.drop offset

/-- Outcome of the pre-dispatch stage of search_round_trips_in_date_range:
a structured rejection carrying requested_combinations,
maximum_allowed and total available pairs, or acceptance with the
paginated pairs the scraping loop will visit.  invalidInput covers the
empty-window guard. -/
inductive DateRangeOutcome where
  | invalidInput : String → DateRangeOutcome
  | rejected : Nat → Nat → Nat → DateRangeOutcome
  | accepted : List (Nat × Nat) → DateRangeOutcome
deriving DecidableEq, Repr

/-- Embedding of the enumeration, pagination and rate-limit gate of
search_round_trips_in_date_range (mcp_server_google_flights/server.py),
for a window of w days (date parsing and the start-after-end guard
happen before this point).  The ceiling is compared against the length
of the paginated slice, not the full enumeration. -/
def search_round_trips_in_date_range_gate (w : Nat)
    (min_stay_days max_stay_days : Option Nat) (offset : Nat) (limit : Int) :
    DateRangeOutcome :=
  if w = 0 then .invalidInput "No valid dates in the specified range."
  else
    let date_pairs_to_check := datePairs w min_stay_days max_stay_days
    let total_date_pairs := date_pairs_to_check.length
    let paginated_pairs := paginatePairs date_pairs_to_check offset limit
    if paginated_pairs.length > MAX_DATE_COMBINATIONS then
      .rejected paginated_pairs.length MAX_DATE_COMBINATIONS total_date_pairs
    else .accepted paginated_pairs

/-- Number of scraping requests the tool then issues: one per accepted
pair (per the docstring of the tool, each date pair combination is one
request), and none at all on rejection or invalid input. -/
def scrapingRequestCount : DateRangeOutcome → Nat
  | .accepted pairs => pairs.length
  | _ => 0

/-! ## JSON values for the Amadeus server

Flight offers handled by mcp_server_amadeus/server.py are JSON values
decoded by json.loads: dicts (association lists with unique keys,
insertion order preserved), lists, strings, numbers, booleans and
null.
-/

inductive Value where
  | vNull : Value
  | vBool : Bool → Value
  | vInt : Int → Value
  | vStr : String → Value
  | vList : List Value → Value
  | vDict : List (String × Value) → Value

/-- First binding of a key in a dict body (Python dict lookup; keys are
unique in a dict produced by json.loads). -/
def lookupKV (k : String) : List (String × Value) → Option Value
  | [] => none
  | (k', v) :: rest => if k' = k then some v else lookupKV k rest

/-- Python "k in d". -/
def hasKeyKV (k : String) (kvs : List (String × Value)) : Bool :=
  (lookupKV k kvs).isSome

/-- Python d.pop(k, None): the dict without the binding of k, order of
the remaining bindings preserved. -/
def removeKV (k : String) : List (String × Value) → List (String × Value)
  | [] => []
  | p :: rest =>
    if p.1 = k then removeKV k rest else p :: removeKV k rest

/-- In-place replacement of the value bound to a key, every other
binding untouched. -/
def updateKV (k : String) (v : Value) :
    List (String × Value) → List (String × Value)
  | [] => []
  | p :: rest =>
    if p.1 = k then (p.1, v) :: updateKV k v rest
    else p :: updateKV k v rest

/-- Keys of a dict body are pairwise distinct (always true of a Python
dict). -/
def keysNodup (kvs : List (String × Value)) : Bool :=
  (kvs.map Prod.fst).Nodup

/-- Field access d.get(k) on a value known to be a dict; none on any
other shape. -/
def getField (v : Value) (k : String) : Option Value :=
  match v with
  | .vDict kvs => lookupKV k kvs
  | _ => none

/-- The itineraries array of an offer ([] when absent or not a list). -/
def itinsOf (v : Value) : List Value :=
  match getField v "itineraries" with
  | some (.vList its) => its
  | _ => []

/-- The segments array of an itinerary ([] when absent or not a list). -/
def segsOf (v : Value) : List Value :=
  match getField v "segments" with
  | some (.vList segs) => segs
  | _ => []

/-- Sequencing of a fallible function over a list, stopping at the
first raised exception (the Python for loop over a list). -/
def mapExcept (f : α → Except ε β) : List α → Except ε (List β)
  | [] => .ok []
  | x :: xs =>
    match f x with
    | .error e => .error e
    | .ok y =>
      match mapExcept f xs with
      | .error e => .error e
      | .ok ys => .ok (y :: ys)

/-! ## Pricing payload sanitizer (pure view)

sanitize_flight_offer_for_pricing deep-copies the offer and then pops
the aircraft field from every segment dict of every itinerary of the
copy.  On immutable values that imperative body denotes the pure
transformation below; the aliasing behaviour of the deep copy is
modelled separately on an explicit heap further down.  A segment or
itinerary that is not a dict would make the Python membership test or
pop raise; that is modelled as an error.
-/

/-- One iteration of the inner segment loop: pop the aircraft field. -/
def sanitizeSegment : Value → Except String Value
  | .vDict skvs => .ok (.vDict (removeKV "aircraft" skvs))
  | _ => .error "TypeError"

/-- One iteration of the itinerary loop: when the itinerary has a
segments list, pop aircraft from each of its segment dicts in place. -/
def sanitizeItinerary : Value → Except String Value
  | .vDict ikvs =>
    match lookupKV "segments" ikvs with
    | none => .ok (.vDict ikvs)
    | some (.vList segs) =>
      match mapExcept sanitizeSegment segs with
      | .error e => .error e
      | .ok segs' => .ok (.vDict (updateKV "segments" (.vList segs') ikvs))
    | some _ => .error "TypeError"
  | _ => .error "TypeError"

/-- Embedding of sanitize_flight_offer_for_pricing
(mcp_server_amadeus/server.py), value view: the returned sanitized
offer.  An offer without an itineraries key is returned unchanged. -/
def sanitize_flight_offer_for_pricing : Value → Except String Value
  | .vDict kvs =>
    match lookupKV "itineraries" kvs with
    | none => .ok (.vDict kvs)
    | some (.vList its) =>
      match mapExcept sanitizeItinerary its with
      | .error e => .error e
      | .ok its' => .ok (.vDict (updateKV "itineraries" (.vList its') kvs))
    | some _ => .error "TypeError"
  | _ => .error "TypeError"

/-- A segment as handled by the sanitizer: a dict with unique keys. -/
def wellShapedSegment : Value → Bool
  | .vDict skvs => keysNodup skvs
  | _ => false

/-- An itinerary as handled by the sanitizer: a dict with unique keys
whose segments entry, when present, is a list of well-shaped
segments. -/
def wellShapedItinerary : Value → Bool
  | .vDict ikvs =>
    keysNodup ikvs &&
    (match lookupKV "segments" ikvs with
     | none => true
     | some (.vList segs) => segs.all wellShapedSegment
     | some _ => false)
  | _ => false

/-- An offer as handled by the sanitizer: a dict with unique keys whose
itineraries entry, when present, is a list of well-shaped
itineraries. -/
def wellShapedOffer : Value → Bool
  | .vDict kvs =>
    keysNodup kvs &&
    (match lookupKV "itineraries" kvs with
     | none => true
     | some (.vList its) => its.all wellShapedItinerary
     | some _ => false)
  | _ => false

/-- No segment of any itinerary of the offer carries an aircraft
field. -/
def aircraftFree (offer : Value) : Bool :=
  (itinsOf offer).all (fun it =>
    (segsOf it).all (fun sg =>
      match sg with
      | .vDict skvs => !hasKeyKV "aircraft" skvs
      | _ => true))

/-- Observational relation between a segment and its sanitized form:
the aircraft field is gone and every other field is unchanged. -/
def segSanitized (sg sg' : Value) : Prop :=
  getField sg' "aircraft" = none ∧
  ∀ k, k ≠ "aircraft" → getField sg' k = getField sg k

/-- Observational relation between an itinerary and its sanitized
form: every field other than segments is unchanged, and the segment
lists correspond pointwise via segSanitized. -/
def itinSanitized (it it' : Value) : Prop :=
  (∀ k, k ≠ "segments" → getField it' k = getField it k) ∧
  List.Forall₂ segSanitized (segsOf it) (segsOf it')

/-- Observational relation between an offer and its sanitized form:
every field other than itineraries is unchanged, and the itinerary
lists correspond pointwise via itinSanitized. -/
def offerSanitized (offer out : Value) : Prop :=
  (∀ k, k ≠ "itineraries" → getField out k = getField offer k) ∧
  List.Forall₂ itinSanitized (itinsOf offer) (itinsOf out)

/-! ## confirm_flight_price: pre-submission validation -/

/-- The missing-field label built for segment seg_idx of itinerary
itin_idx. -/
def segIdFieldName (itin_idx seg_idx : Nat) : String :=
  "itineraries[" ++ toString itin_idx ++ "].segments[" ++
    toString seg_idx ++ "].id"

/-- The inner segment loop of the validation in confirm_flight_price:
the index of the first segment without an id, scanning in order and
raising (error) on a non-dict segment when it is reached. -/
def firstSegmentMissingId (seg_idx : Nat) :
    List Value → Except String (Option Nat)
  | [] => .ok none
  | .vDict skvs :: rest =>
    if hasKeyKV "id" skvs then firstSegmentMissingId (seg_idx + 1) rest
    else .ok (some seg_idx)
  | _ :: _ => .error "TypeError"

/-- The outer itinerary loop of the validation: scan itineraries in
order; an itinerary with a segments list contributes the label of its
first id-less segment (if any) and then breaks out of the loop whenever
the accumulated missing_fields list is non-empty; an itinerary without
a segments key never triggers the break. -/
def scanItineraries (itin_idx : Nat) (missing_fields : List String) :
    List Value → Except String (List String)
  | [] => .ok missing_fields
  | itin :: rest =>
    match itin with
    | .vDict ikvs =>
      match lookupKV "segments" ikvs with
      | none => scanItineraries (itin_idx + 1) missing_fields rest
      | some (.vList segs) =>
        match firstSegmentMissingId 0 segs with
        | .error e => .error e
        | .ok firstMissing =>
          let missing_fields' :=
            match firstMissing with
            | some seg_idx =>
              missing_fields ++ [segIdFieldName itin_idx seg_idx]
            | none => missing_fields
          if missing_fields' ≠ [] then .ok missing_fields'
          else scanItineraries (itin_idx + 1) missing_fields' rest
      | some _ => .error "TypeError"
    | _ => .error "TypeError"

/-- The missing_fields list computed by confirm_flight_price before any
network call: travelerPricings and source when absent from the offer
dict, then the segment-id scan. -/
def confirmMissingFields : Value → Except String (List String)
  | .vDict kvs =>
    let missing0 :=
      (if hasKeyKV "travelerPricings" kvs then []
       else ["travelerPricings"]) ++
      (if hasKeyKV "source" kvs then [] else ["source"])
    match lookupKV "itineraries" kvs with
    | none => .ok missing0
    | some (.vList its) => scanItineraries 0 missing0 its
    | some _ => .error "TypeError"
  | _ => .error "TypeError"

/-- The fixed guidance text of the invalid-format error (inner quote
marks of the Python literals omitted). -/
def confirmDetailsText : String :=
  "You are likely passing the simplified offers summary instead of " ++
    "the complete raw_offers data"

/-- The fixed remediation text of the invalid-format error. -/
def confirmSolutionText : String :=
  "Use the raw_offers field from search_flights results, not the " ++
    "offers field"

/-- Outcome of confirm_flight_price up to the pricing request: either
the invalid-format error dict naming the missing fields (no pricing
request issued), or the sanitized offer submitted in the pricing
payload. -/
inductive ConfirmOutcome where
  | invalidFormat : List String → String → String → ConfirmOutcome
  | pricingRequested : Value → ConfirmOutcome

/-- Embedding of confirm_flight_price (mcp_server_amadeus/server.py)
up to the amadeus_request call: validate the raw offer, fail fast with
the typed error when fields are missing, otherwise sanitize and submit
the sanitized offer to the pricing endpoint. -/
def confirm_flight_price (offer : Value) : Except String ConfirmOutcome :=
  match confirmMissingFields offer with
  | .error e => .error e
  | .ok missing_fields =>
    if missing_fields ≠ [] then
      .ok (.invalidFormat missing_fields confirmDetailsText
        confirmSolutionText)
    else
      match sanitize_flight_offer_for_pricing offer with
      | .error e => .error e
      | .ok sanitized_offer => .ok (.pricingRequested sanitized_offer)

/-- Every segment of every itinerary of the offer carries an id field
(the property the validation is meant to check). -/
def allSegmentsHaveId (offer : Value) : Bool :=
  (itinsOf offer).all (fun it =>
    (segsOf it).all (fun sg =>
      match sg with
      | .vDict skvs => hasKeyKV "id" skvs
      | _ => false))

/-- The three requirements of the pricing endpoint all hold on the raw
offer: travelerPricings, source, and an id on every segment. -/
def pricingFieldsPresent (offer : Value) : Bool :=
  match offer with
  | .vDict kvs =>
    hasKeyKV "travelerPricings" kvs && hasKeyKV "source" kvs &&
      allSegmentsHaveId offer
  | _ => false

/-! ## Pricing payload sanitizer (heap view)

The claim that the original offer object is unmodified after
sanitization is about Python object identity, so here the body of
sanitize_flight_offer_for_pricing is embedded against an explicit
heap: objects live at addresses, copy.deepcopy allocates fresh
addresses for an isomorphic structure (offers come from json.loads, so
they are trees without shared substructure), and segment.pop mutates
the store at the segment address of the copy.
-/

/-- A heap node: a JSON object whose containers hold the addresses of
their children. -/
inductive HVal where
  | hNull : HVal
  | hBool : Bool → HVal
  | hInt : Int → HVal
  | hStr : String → HVal
  | hList : List Nat → HVal
  | hDict : List (String × Nat) → HVal
deriving DecidableEq, Repr

/-- An object store: the allocated nodes and the next fresh address. -/
structure Store where
  heap : List (Nat × HVal)
  next : Nat
deriving DecidableEq, Repr

/-- Node at an address. -/
def lookupH (h : List (Nat × HVal)) (a : Nat) : Option HVal :=
  match h with
  | [] => none
  | (b, v) :: rest => if b = a then some v else lookupH rest a

/-- In-place mutation of the node at an address. -/
def updateH : List (Nat × HVal) → Nat → HVal → List (Nat × HVal)
  | [], _, _ => []
  | p :: rest, a, v =>
    if p.1 = a then (a, v) :: updateH rest a v
    else p :: updateH rest a v

/-- Allocation of a node at the next fresh address. -/
def allocH (st : Store) (v : HVal) : Nat × Store :=
  (st.next, ⟨(st.next, v) :: st.heap, st.next + 1⟩)

/-- Addresses a node refers to. -/
def childrenH : HVal → List Nat
  | .hList as => as
  | .hDict kvs => kvs.map Prod.snd
  | _ => []

/-- Every allocated address is below the allocation bound. -/
def StoreWF (st : Store) : Prop :=
  ∀ p ∈ st.heap, p.1 < st.next

/-- Every node living at or above base points only at or above base
(the copied region is closed). -/
def freshClosed (base : Nat) (st : Store) : Prop :=
  ∀ a v, lookupH st.heap a = some v → base ≤ a →
    ∀ c ∈ childrenH v, base ≤ c

/-- Binding of a key in a dict node body. -/
def lookupKVH (k : String) : List (String × Nat) → Option Nat
  | [] => none
  | (k', a) :: rest => if k' = k then some a else lookupKVH k rest

/-- Dict node body without the binding of a key. -/
def removeKVH (k : String) : List (String × Nat) → List (String × Nat)
  | [] => []
  | p :: rest =>
    if p.1 = k then removeKVH k rest else p :: removeKVH k rest

/-- copy.deepcopy over a list of root addresses: children are copied
first, then the node itself is reallocated fresh; the fuel bounds the
recursion depth and only fails (none) when it runs out or an address
dangles. -/
def deepcopyAddrs : Nat → Store → List Nat → Option (List Nat × Store)
  | _, st, [] => some ([], st)
  | 0, _, _ :: _ => none
  | fuel + 1, st, a :: rest =>
    match lookupH st.heap a with
    | none => none
    | some .hNull =>
      let (a', st1) := allocH st .hNull
      (deepcopyAddrs fuel st1 rest).map (fun r => (a' :: r.1, r.2))
    | some (.hBool b) =>
      let (a', st1) := allocH st (.hBool b)
      (deepcopyAddrs fuel st1 rest).map (fun r => (a' :: r.1, r.2))
    | some (.hInt n) =>
      let (a', st1) := allocH st (.hInt n)
      (deepcopyAddrs fuel st1 rest).map (fun r => (a' :: r.1, r.2))
    | some (.hStr s) =>
      let (a', st1) := allocH st (.hStr s)
      (deepcopyAddrs fuel st1 rest).map (fun r => (a' :: r.1, r.2))
    | some (.hList cs) =>
      match deepcopyAddrs fuel st cs with
      | none => none
      | some (cs', st1) =>
        let (a', st2) := allocH st1 (.hList cs')
        (deepcopyAddrs fuel st2 rest).map (fun r => (a' :: r.1, r.2))
    | some (.hDict kvs) =>
      match deepcopyAddrs fuel st (kvs.map Prod.snd) with
      | none => none
      | some (vs', st1) =>
        let (a', st2) := allocH st1 (.hDict ((kvs.map Prod.fst).zip vs'))
        (deepcopyAddrs fuel st2 rest).map (fun r => (a' :: r.1, r.2))

/-- The inner segment loop on the heap: pop the aircraft binding from
each segment dict, mutating the copy in place. -/
def stripSegAddrs (st : Store) : List Nat → Option Store
  | [] => some st
  | a :: rest =>
    match lookupH st.heap a with
    | some (.hDict skvs) =>
      stripSegAddrs ⟨updateH st.heap a (.hDict (removeKVH "aircraft" skvs)),
        st.next⟩ rest
    | _ => none

/-- The itinerary loop on the heap: for each itinerary dict that has a
segments list, strip its segments. -/
def stripItinAddrs (st : Store) : List Nat → Option Store
  | [] => some st
  | a :: rest =>
    match lookupH st.heap a with
    | some (.hDict ikvs) =>
      match lookupKVH "segments" ikvs with
      | none => stripItinAddrs st rest
      | some sa =>
        match lookupH st.heap sa with
        | some (.hList segAddrs) =>
          match stripSegAddrs st segAddrs with
          | some st' => stripItinAddrs st' rest
          | none => none
        | _ => none
    | _ => none

/-- The aircraft-stripping body applied to the copied offer. -/
def stripHeapOffer (st : Store) (a : Nat) : Option Store :=
  match lookupH st.heap a with
  | some (.hDict kvs) =>
    match lookupKVH "itineraries" kvs with
    | none => some st
    | some ia =>
      match lookupH st.heap ia with
      | some (.hList itAddrs) => stripItinAddrs st itAddrs
      | _ => none
  | _ => none

/-- Embedding of sanitize_flight_offer_for_pricing on the heap:
sanitized = copy.deepcopy(offer), then the aircraft fields of the copy
are popped in place; the address of the copy and the final store are
returned. -/
def sanitizeHeap (fuel : Nat) (st : Store) (offerAddr : Nat) :
    Option (Nat × Store) :=
  match deepcopyAddrs fuel st [offerAddr] with
  | some ([copyAddr], st1) =>
    (stripHeapOffer st1 copyAddr).map (fun st2 => (copyAddr, st2))
  | _ => none

/-- Specification carried through the deepcopy recursion: the store
only grows, pre-existing addresses keep their nodes, every returned
copy address is fresh, and closedness of the fresh region is
preserved. -/
def DCSpec (st : Store) (as' : List Nat) (st' : Store) : Prop :=
  StoreWF st' ∧ st.next ≤ st'.next ∧
  (∀ b, b < st.next → lookupH st'.heap b = lookupH st.heap b) ∧
  (∀ x ∈ as', st.next ≤ x) ∧
  (∀ base, base ≤ st.next → freshClosed base st → freshClosed base st')

/-- The "source" entry of the response dict each search path returns,
recording which provider answered. -/
def hybridSourceTag : HybridResponse → String
  | .serpResponse _ => "serpapi"
  | .fastResponse => "fast-flights"

/-! ## Concrete inputs used by witnesses and counterexamples -/

/-- A raw offer segment with an aircraft field (shape of the Amadeus
raw_offers data). -/
def exSegWithAircraft1 : Value :=
  .vDict [("id", .vStr "1"),
    ("aircraft", .vDict [("code", .vStr "32Q")]),
    ("carrierCode", .vStr "F9")]

/-- A second raw offer segment with an aircraft field. -/
def exSegWithAircraft2 : Value :=
  .vDict [("id", .vStr "2"),
    ("aircraft", .vDict [("code", .vStr "321")]),
    ("carrierCode", .vStr "F9")]

/-- An itinerary holding the two segments above. -/
def exItinTwoAircraft : Value :=
  .vDict [("duration", .vStr "PT8H1M"),
    ("segments", .vList [exSegWithAircraft1, exSegWithAircraft2])]

/-- A raw flight offer whose two segments both carry aircraft fields. -/
def exOfferTwoAircraft : Value :=
  .vDict [("type", .vStr "flight-offer"),
    ("source", .vStr "GDS"),
    ("itineraries", .vList [exItinTwoAircraft]),
    ("travelerPricings", .vList [.vDict [("travelerId", .vStr "1")]])]

/-- The same kind of offer laid out on the heap: address 0 is the
offer, 1 the itineraries list, 2 the itinerary, 3 the segments list,
4 the segment dict, 5 the aircraft code and 6 the segment id. -/
def exStore : Store :=
  ⟨[(0, .hDict [("itineraries", 1)]),
    (1, .hList [2]),
    (2, .hDict [("segments", 3)]),
    (3, .hList [4]),
    (4, .hDict [("aircraft", 5), ("id", 6)]),
    (5, .hStr "32Q"),
    (6, .hStr "1")], 7⟩

/-- An aircraft-free, well-shaped offer (already sanitized). -/
def exOfferAircraftFree : Value :=
  .vDict [("type", .vStr "flight-offer"),
    ("source", .vStr "GDS"),
    ("itineraries", .vList
      [.vDict [("duration", .vStr "PT8H1M"),
        ("segments", .vList
          [.vDict [("id", .vStr "1"), ("carrierCode", .vStr "F9")]])]]),
    ("travelerPricings", .vList [.vDict [("travelerId", .vStr "1")]])]

/-- A segment with no id field. -/
def exSegNoId1 : Value :=
  .vDict [("carrierCode", .vStr "F9"), ("number", .vStr "3237")]

/-- A second segment with no id field. -/
def exSegNoId2 : Value :=
  .vDict [("carrierCode", .vStr "F9"), ("number", .vStr "3238")]

/-- An offer that has travelerPricings and source but whose two
segments both lack an id. -/
def exOfferTwoMissingIds : Value :=
  .vDict [("type", .vStr "flight-offer"),
    ("source", .vStr "GDS"),
    ("travelerPricings", .vList [.vDict [("travelerId", .vStr "1")]]),
    ("itineraries", .vList
      [.vDict [("segments", .vList [exSegNoId1, exSegNoId2])]])]

/-- An outbound flight priced as the int 150. -/
def exOutbound150 : CombineInputFlight :=
  { price := some (.pint 150)
    airlines := some "United"
    segments := []
    departure_time := some "2025-09-10 08:00"
    arrival_time := some "2025-09-10 11:00"
    is_best_flight := true }

/-- A return flight priced as the formatted string 100 dollars. -/
def exReturn100 : CombineInputFlight :=
  { price := some (.pstr "$100")
    airlines := some "Delta"
    segments := []
    departure_time := some "2025-09-15 09:00"
    arrival_time := some "2025-09-15 12:00"
    is_best_flight := false }

/-- A raw SerpApi segment JFK to DEN. -/
def exSerpSeg1 : SerpRawSegment :=
  { departure_airport :=
      { id := some "JFK", name := some "John F. Kennedy International"
        time := some "2025-09-10 08:00" }
    arrival_airport :=
      { id := some "DEN", name := some "Denver International"
        time := some "2025-09-10 10:00" }
    duration := some 240
    airplane := some "Boeing 737"
    airline := some "United"
    flight_number := some "UA 100" }

/-- A raw SerpApi segment DEN to LAX. -/
def exSerpSeg2 : SerpRawSegment :=
  { departure_airport :=
      { id := some "DEN", name := some "Denver International"
        time := some "2025-09-10 11:00" }
    arrival_airport :=
      { id := some "LAX", name := some "Los Angeles International"
        time := some "2025-09-10 12:30" }
    duration := some 150
    airplane := some "Airbus A320"
    airline := some "United"
    flight_number := some "UA 200" }

/-- A raw SerpApi flight with two segments. -/
def exSerpFlightTwoSegs : SerpFlightData :=
  { flights := [exSerpSeg1, exSerpSeg2]
    price := some (.pint 320)
    total_duration := some 390
    flight_type := some "One way" }

/-- A fast-flights v2.2 flight with one stop and a string price. -/
def exV2FlightOneStop : V2Flight :=
  { price := some (.pstr "$268")
    name := some "Delta"
    is_best := false
    departure := some "8:00 AM on Sun, Jul 20"
    arrival := some "4:30 PM on Sun, Jul 20"
    duration := .dInt 510
    stops := some 1 }

/-- A normalized flight priced 150 (the SFO to JFK scenario). -/
def exFlight150 : NormalizedFlight :=
  { price := some (.pint 150)
    airlines := some "United"
    flight_type := some "One way"
    departure_time := some "2025-07-20 08:00"
    arrival_time := some "2025-07-20 16:30"
    total_duration := some "5h 30m"
    stops := 0
    segments := []
    source := "SerpApi"
    is_best_flight := true }

/-- A normalized flight priced 200 (the SFO to JFK scenario). -/
def exFlight200 : NormalizedFlight :=
  { price := some (.pint 200)
    airlines := some "Delta"
    flight_type := some "One way"
    departure_time := some "2025-07-20 09:00"
    arrival_time := some "2025-07-20 17:45"
    total_duration := some "5h 45m"
    stops := 0
    segments := []
    source := "SerpApi"
    is_best_flight := false }

/-- A normalized flight with an unparseable price string. -/
def exFlightBadPrice : NormalizedFlight :=
  { price := some (.pstr "Price unavailable")
    airlines := some "Spirit"
    flight_type := some "One way"
    departure_time := none
    arrival_time := none
    total_duration := none
    stops := 1
    segments := []
    source := "SerpApi"
    is_best_flight := false }

/-- A fast-flights v2.2 flight whose price attribute is the formatted
string 268 dollars. -/
def exV2FlightDollar : V2Flight :=
  { price := some (.pstr "$268")
    name := some "United"
    is_best := true
    departure := some "6:00 AM on Sun, Jul 20"
    arrival := some "2:30 PM on Sun, Jul 20"
    duration := .dInt 510
    stops := some 0 }

/-- The store produced by sanitizeHeap 10 exStore 0: addresses 7 to 13
hold the copy (its segment dict at 9 stripped of aircraft) and the
original objects at 0 to 6 are untouched. -/
def exStoreAfter : Store :=
  ⟨[(13, .hDict [("itineraries", 12)]),
    (12, .hList [11]),
    (11, .hDict [("segments", 10)]),
    (10, .hList [9]),
    (9, .hDict [("id", 8)]),
    (8, .hStr "1"),
    (7, .hStr "32Q"),
    (0, .hDict [("itineraries", 1)]),
    (1, .hList [2]),
    (2, .hDict [("segments", 3)]),
    (3, .hList [4]),
    (4, .hDict [("aircraft", 5), ("id", 6)]),
    (5, .hStr "32Q"),
    (6, .hStr "1")], 14⟩

/-- The combined round trip built from exOutbound150 and exReturn100:
150 plus the parsed 100 gives 250. -/
def exCombined250 : CombinedRoundTrip :=
  { price := 250
    airlines := "United, Delta"
    flight_type := "Round trip"
    departure_time := some "2025-09-10 08:00"
    arrival_time := some "2025-09-15 12:00"
    total_duration := none
    stops := 0
    segments := []
    outbound_details := exOutbound150
    return_details := exReturn100
    source := "SerpApi (combined)"
    is_best_flight := true }

/-! ## Helper lemmas about the price order and Python min -/

theorem ppLt_irrefl (a : ParsedPrice) : ppLt a a = false := by
  cases a <;> simp [ppLt]

theorem ppLt_trans {a b c : ParsedPrice} (h1 : ppLt a b = true)
    (h2 : ppLt b c = true) : ppLt a c = true := by
  cases a <;> cases b <;> cases c <;> simp_all [ppLt]
  all_goals omega

theorem ppLt_of_lt_of_nlt {a b c : ParsedPrice} (h1 : ppLt a b = true)
    (h2 : ppLt c b = false) : ppLt a c = true := by
  cases a <;> cases b <;> cases c <;> simp_all [ppLt]
  all_goals omega

theorem minFold_cons (key : α → ParsedPrice) (x y : α) (xs : List α) :
    minFold key x (y :: xs) =
      minFold key (if ppLt (key y) (key x) then y else x) xs := rfl

theorem minFold_mem (key : α → ParsedPrice) (x : α) (xs : List α) :
    minFold key x xs ∈ x :: xs := by
  induction xs generalizing x with
  | nil => simp [minFold]
  | cons y rest ih =>
    rw [minFold_cons]
    rcases List.mem_cons.mp (ih (if ppLt (key y) (key x) then y else x)) with
      h | h
    · rw [h]
      by_cases hb : ppLt (key y) (key x) = true
      · simp [hb]
      · simp [hb]
    · simp [h]

theorem minFold_min (key : α → ParsedPrice) (x : α) (xs : List α) :
    ∀ z ∈ x :: xs, ppLt (key z) (key (minFold key x xs)) = false := by
  induction xs generalizing x with
  | nil =>
    intro z hz
    simp only [List.mem_singleton] at hz
    subst hz
    simp [minFold, ppLt_irrefl]
  | cons y rest ih =>
    intro z hz
    rw [minFold_cons]
    by_cases hb : ppLt (key y) (key x) = true
    · rw [if_pos hb]
      rcases List.mem_cons.mp hz with hzx | hrest

      · rw [hzx]
        have hym := ih y y (List.mem_cons_self y rest)
        cases hxm : ppLt (key x) (key (minFold key y rest)) with
        | false => rfl
        | true => rw [ppLt_trans hb hxm] at hym; simp at hym
      · exact ih y z hrest
    · rw [if_neg hb]
      have hb' : ppLt (key y) (key x) = false := by
        cases h : ppLt (key y) (key x)
        · rfl
        · exact absurd h hb
      rcases List.mem_cons.mp hz with hzx | hrest
      · rw [hzx]
        exact ih x x (List.mem_cons_self x rest)
      · rcases List.mem_cons.mp hrest with hzy | hrest'
        · rw [hzy]
          have hxm := ih x x (List.mem_cons_self x rest)
          cases hym : ppLt (key y) (key (minFold key x rest)) with
          | false => rfl
          | true => rw [ppLt_of_lt_of_nlt hym hxm] at hb'; simp at hb'
        · exact ih x z (List.mem_cons.mpr (Or.inr hrest'))

theorem pyMinByKey_spec (key : α → ParsedPrice) (l : List α) (h : l ≠ []) :
    ∃ c, pyMinByKey key l = some c ∧ c ∈ l ∧
      ∀ z ∈ l, ppLt (key z) (key c) = false := by
  cases l with
  | nil => exact absurd rfl h
  | cons x xs =>
    exact ⟨minFold key x xs, rfl, minFold_mem key x xs, minFold_min key x xs⟩

theorem key_fin_of_not_below {key : α → ParsedPrice} {c g : α} {n : Int}
    (hg : key g = .fin n) (hmin : ppLt (key g) (key c) = false) :
    ∃ m, key c = .fin m := by
  cases hc : key c with
  | fin m => exact ⟨m, rfl⟩
  | inf => rw [hg, hc] at hmin; simp [ppLt] at hmin

theorem parse_price_total (v : PriceVal) :
    (∃ n, parse_price v = .fin n) ∨ parse_price v = .inf := by
  cases v with
  | pnone => exact Or.inr rfl
  | pint n => exact Or.inl ⟨n, rfl⟩
  | pstr s =>
    cases h : pyParseInt (stripDollarCommas s) with
    | none => exact Or.inr (by simp [parse_price, h])
    | some n => exact Or.inl ⟨n, by simp [parse_price, h]⟩
  | pother => exact Or.inr rfl

theorem mapWithIndex_length (f : Nat → α → β) (i : Nat) (l : List α) :
    (mapWithIndex f i l).length = l.length := by
  induction l generalizing i with
  | nil => rfl
  | cons x xs ih => simp [mapWithIndex, ih]

/-! ## Helper lemmas about dict bodies and fallible mapping -/

theorem lookupKV_removeKV_self (k : String) (kvs : List (String × Value)) :
    lookupKV k (removeKV k kvs) = none := by
  induction kvs with
  | nil => rfl
  | cons p rest ih =>
    rw [removeKV]
    by_cases h : p.1 = k
    · rw [if_pos h]
      exact ih
    · rw [if_neg h, lookupKV, if_neg h]
      exact ih

theorem lookupKV_removeKV_other {k' k : String} (h : k' ≠ k)
    (kvs : List (String × Value)) :
    lookupKV k' (removeKV k kvs) = lookupKV k' kvs := by
  induction kvs with
  | nil => rfl
  | cons p rest ih =>
    rw [removeKV]
    by_cases hpk : p.1 = k
    · have hpk' : ¬ p.1 = k' := by
        rw [hpk]
        exact fun he => h he.symm
      rw [if_pos hpk]
      conv_rhs => rw [lookupKV, if_neg hpk']
      exact ih
    · rw [if_neg hpk, lookupKV, lookupKV]
      by_cases hpk' : p.1 = k'
      · rw [if_pos hpk', if_pos hpk']
      · rw [if_neg hpk', if_neg hpk']
        exact ih

theorem lookupKV_updateKV_self {k : String} {v0 : Value} (v : Value)
    {kvs : List (String × Value)} (h : lookupKV k kvs = some v0) :
    lookupKV k (updateKV k v kvs) = some v := by
  induction kvs with
  | nil => cases h
  | cons p rest ih =>
    rw [updateKV]
    by_cases hpk : p.1 = k
    · rw [if_pos hpk, lookupKV, if_pos hpk]
    · rw [lookupKV, if_neg hpk] at h
      rw [if_neg hpk, lookupKV, if_neg hpk]
      exact ih h

theorem lookupKV_updateKV_other {k' k : String} (h : k' ≠ k) (v : Value)
    (kvs : List (String × Value)) :
    lookupKV k' (updateKV k v kvs) = lookupKV k' kvs := by
  induction kvs with
  | nil => rfl
  | cons p rest ih =>
    rw [updateKV]
    by_cases hpk : p.1 = k
    · have hpk' : ¬ p.1 = k' := by
        rw [hpk]
        exact fun he => h he.symm
      rw [if_pos hpk, lookupKV, if_neg hpk']
      conv_rhs => rw [lookupKV, if_neg hpk']
      exact ih
    · rw [if_neg hpk, lookupKV, lookupKV]
      by_cases hpk' : p.1 = k'
      · rw [if_pos hpk', if_pos hpk']
      · rw [if_neg hpk', if_neg hpk']
        exact ih

theorem removeKV_eq_self {k : String} {kvs : List (String × Value)}
    (h : lookupKV k kvs = none) : removeKV k kvs = kvs := by
  induction kvs with
  | nil => rfl
  | cons p rest ih =>
    rw [lookupKV] at h
    by_cases hpk : p.1 = k
    · rw [if_pos hpk] at h
      cases h
    · rw [if_neg hpk] at h
      rw [removeKV, if_neg hpk, ih h]

theorem lookupKV_eq_none_of_keys {k : String}
    {kvs : List (String × Value)} (h : ∀ p ∈ kvs, p.1 ≠ k) :
    lookupKV k kvs = none := by
  induction kvs with
  | nil => rfl
  | cons p rest ih =>
    rw [lookupKV, if_neg (h p (List.mem_cons_self p rest))]
    exact ih (fun q hq => h q (List.mem_cons.mpr (Or.inr hq)))

theorem updateKV_of_absent {k : String} (v : Value)
    {kvs : List (String × Value)} (h : lookupKV k kvs = none) :
    updateKV k v kvs = kvs := by
  induction kvs with
  | nil => rfl
  | cons p rest ih =>
    rw [lookupKV] at h
    by_cases hpk : p.1 = k
    · rw [if_pos hpk] at h
      cases h
    · rw [if_neg hpk] at h
      rw [updateKV, if_neg hpk, ih h]

theorem updateKV_eq_self {k : String} {v : Value}
    {kvs : List (String × Value)} (hnd : keysNodup kvs = true)
    (h : lookupKV k kvs = some v) : updateKV k v kvs = kvs := by
  induction kvs with
  | nil => cases h
  | cons p rest ih =>
    have hnd' : ((p :: rest).map Prod.fst).Nodup := of_decide_eq_true hnd
    rw [List.map_cons, List.nodup_cons] at hnd'
    rw [lookupKV] at h
    by_cases hpk : p.1 = k
    · rw [if_pos hpk] at h
      have hv : v = p.2 := by
        cases h
        rfl
      have hrest : lookupKV k rest = none := by
        apply lookupKV_eq_none_of_keys
        intro q hq hqk
        apply hnd'.1
        rw [← hpk] at hqk
        rw [← hqk]
        exact List.mem_map.mpr ⟨q, hq, rfl⟩
      rw [updateKV, if_pos hpk, updateKV_of_absent v hrest, hv]
    · rw [if_neg hpk] at h
      rw [updateKV, if_neg hpk, ih (decide_eq_true hnd'.2) h]

theorem mapExcept_ok_forall {f : α → Except ε β} :
    ∀ {l : List α} {l' : List β}, mapExcept f l = .ok l' →
      List.Forall₂ (fun a b => f a = .ok b) l l' := by
  intro l
  induction l with
  | nil =>
    intro l' h
    rw [mapExcept] at h
    cases h
    exact List.Forall₂.nil
  | cons x xs ih =>
    intro l' h
    rw [mapExcept] at h
    cases hf : f x with
    | error e => rw [hf] at h; cases h
    | ok y =>
      rw [hf] at h
      cases hm : mapExcept f xs with
      | error e => rw [hm] at h; cases h
      | ok ys =>
        rw [hm] at h
        cases h
        exact List.Forall₂.cons hf (ih hm)

theorem mapExcept_ok_of_forall {f : α → Except ε β} :
    ∀ {l : List α}, (∀ x ∈ l, ∃ y, f x = .ok y) →
      ∃ l', mapExcept f l = .ok l' := by
  intro l
  induction l with
  | nil => exact fun _ => ⟨[], rfl⟩
  | cons x xs ih =>
    intro h
    obtain ⟨y, hy⟩ := h x (List.mem_cons_self x xs)
    obtain ⟨ys, hys⟩ := ih (fun z hz => h z (List.mem_cons.mpr (Or.inr hz)))
    exact ⟨y :: ys, by rw [mapExcept, hy, hys]⟩

theorem mapExcept_id {f : α → Except ε α} :
    ∀ {l : List α}, (∀ x ∈ l, f x = .ok x) → mapExcept f l = .ok l := by
  intro l
  induction l with
  | nil => exact fun _ => rfl
  | cons x xs ih =>
    intro h
    rw [mapExcept, h x (List.mem_cons_self x xs),
      ih (fun z hz => h z (List.mem_cons.mpr (Or.inr hz)))]

/-! ## Sanitizer lemmas (pure view) -/

theorem sanitizeSegment_ok {sg : Value}
    (hws : wellShapedSegment sg = true) :
    ∃ sg', sanitizeSegment sg = .ok sg' := by
  cases sg with
  | vDict skvs => exact ⟨_, rfl⟩
  | vNull => cases hws
  | vBool b => cases hws
  | vInt n => cases hws
  | vStr s => cases hws
  | vList l => cases hws

theorem sanitizeSegment_spec {sg sg' : Value}
    (h : sanitizeSegment sg = .ok sg') : segSanitized sg sg' := by
  cases sg with
  | vDict skvs =>
    rw [sanitizeSegment] at h
    cases h
    constructor
    · exact lookupKV_removeKV_self "aircraft" skvs
    · intro k hk
      exact lookupKV_removeKV_other hk skvs
  | vNull => cases h
  | vBool b => cases h
  | vInt n => cases h
  | vStr s => cases h
  | vList l => cases h

theorem sanitizeItinerary_spec (it : Value)
    (hws : wellShapedItinerary it = true) :
    ∃ it', sanitizeItinerary it = .ok it' ∧ itinSanitized it it' := by
  cases it with
  | vDict ikvs =>
    rw [wellShapedItinerary] at hws
    rw [Bool.and_eq_true] at hws
    cases hseg : lookupKV "segments" ikvs with
    | none =>
      refine ⟨.vDict ikvs, by rw [sanitizeItinerary, hseg], ?_,
        ?_⟩
      · intro k hk
        rfl
      · show List.Forall₂ _ (segsOf (.vDict ikvs)) (segsOf (.vDict ikvs))
        simp only [segsOf, getField, hseg]
        exact List.Forall₂.nil
    | some sv =>
      rw [hseg] at hws
      cases sv with
      | vList segs =>
        have hall : ∀ sg ∈ segs, wellShapedSegment sg = true :=
          List.all_eq_true.mp hws.2
        obtain ⟨segs', hm⟩ := mapExcept_ok_of_forall
          (fun sg hsg => sanitizeSegment_ok (hall sg hsg))
        have hm' : mapExcept sanitizeSegment segs = .ok segs' := hm
        refine ⟨.vDict (updateKV "segments" (.vList segs') ikvs),
          by simp only [sanitizeItinerary, hseg, hm'], ?_, ?_⟩
        · intro k hk
          show lookupKV k (updateKV "segments" (.vList segs') ikvs) =
            lookupKV k ikvs
          exact lookupKV_updateKV_other hk _ ikvs
        · have hlook : lookupKV "segments"
              (updateKV "segments" (.vList segs') ikvs) =
              some (.vList segs') :=
            lookupKV_updateKV_self _ hseg
          show List.Forall₂ _ (segsOf (.vDict ikvs)) _
          simp only [segsOf, getField, hseg, hlook]
          exact (mapExcept_ok_forall hm).imp
            (fun _ _ hab => sanitizeSegment_spec hab)
      | vNull => cases hws.2
      | vBool b => cases hws.2
      | vInt n => cases hws.2
      | vStr s => cases hws.2
      | vDict d => cases hws.2
  | vNull => cases hws
  | vBool b => cases hws
  | vInt n => cases hws
  | vStr s => cases hws
  | vList l => cases hws

theorem forall₂_itinSanitized {its its' : List Value}
    (hall : ∀ it ∈ its, wellShapedItinerary it = true)
    (hm : List.Forall₂ (fun a b => sanitizeItinerary a = .ok b) its its') :
    List.Forall₂ itinSanitized its its' := by
  induction hm with
  | nil => exact List.Forall₂.nil
  | @cons a b l1 l2 hab htail ih =>
    refine List.Forall₂.cons ?_
      (ih (fun it hit => hall it (List.mem_cons.mpr (Or.inr hit))))
    obtain ⟨it', hok, hsan⟩ :=
      sanitizeItinerary_spec a (hall a (List.mem_cons_self a l1))
    rw [hok] at hab
    cases hab
    exact hsan

theorem sanitize_offer_spec (offer : Value)
    (hws : wellShapedOffer offer = true) :
    ∃ out, sanitize_flight_offer_for_pricing offer = .ok out ∧
      offerSanitized offer out := by
  cases offer with
  | vDict kvs =>
    rw [wellShapedOffer] at hws
    rw [Bool.and_eq_true] at hws
    cases hits : lookupKV "itineraries" kvs with
    | none =>
      refine ⟨.vDict kvs, by rw [sanitize_flight_offer_for_pricing, hits],
        ?_, ?_⟩
      · intro k hk
        rfl
      · show List.Forall₂ _ (itinsOf (.vDict kvs)) (itinsOf (.vDict kvs))
        simp only [itinsOf, getField, hits]
        exact List.Forall₂.nil
    | some sv =>
      rw [hits] at hws
      cases sv with
      | vList its =>
        have hall : ∀ it ∈ its, wellShapedItinerary it = true :=
          List.all_eq_true.mp hws.2
        have hex : ∀ it ∈ its, ∃ it', sanitizeItinerary it = .ok it' :=
          fun it hit =>
            (sanitizeItinerary_spec it (hall it hit)).elim
              (fun it' h => ⟨it', h.1⟩)
        obtain ⟨its', hm⟩ := mapExcept_ok_of_forall hex
        have hm' : mapExcept sanitizeItinerary its = .ok its' := hm
        refine ⟨.vDict (updateKV "itineraries" (.vList its') kvs),
          by simp only [sanitize_flight_offer_for_pricing, hits, hm'], ?_,
          ?_⟩
        · intro k hk
          show lookupKV k (updateKV "itineraries" (.vList its') kvs) =
            lookupKV k kvs
          exact lookupKV_updateKV_other hk _ kvs
        · have hlook : lookupKV "itineraries"
              (updateKV "itineraries" (.vList its') kvs) =
              some (.vList its') :=
            lookupKV_updateKV_self _ hits
          show List.Forall₂ _ (itinsOf (.vDict kvs)) _
          simp only [itinsOf, getField, hits, hlook]
          exact forall₂_itinSanitized hall (mapExcept_ok_forall hm)
      | vNull => cases hws.2
      | vBool b => cases hws.2
      | vInt n => cases hws.2
      | vStr s => cases hws.2
      | vDict d => cases hws.2
  | vNull => cases hws
  | vBool b => cases hws
  | vInt n => cases hws
  | vStr s => cases hws
  | vList l => cases hws

/-! ## Heap lemmas for the deep-copy frame property -/

theorem lookupH_mem {h : List (Nat × HVal)} {a : Nat} {v : HVal}
    (hl : lookupH h a = some v) : (a, v) ∈ h := by
  induction h with
  | nil => cases hl
  | cons p rest ih =>
    obtain ⟨b, w⟩ := p
    rw [lookupH] at hl
    by_cases hb : b = a
    · rw [if_pos hb] at hl
      cases hl
      rw [hb]
      exact List.mem_cons_self _ _
    · rw [if_neg hb] at hl
      exact List.mem_cons.mpr (Or.inr (ih hl))

theorem StoreWF_lookup_lt {st : Store} (hwf : StoreWF st) {a : Nat}
    {v : HVal} (hl : lookupH st.heap a = some v) : a < st.next :=
  hwf (a, v) (lookupH_mem hl)

theorem freshClosed_of_WF {st : Store} (hwf : StoreWF st) :
    freshClosed st.next st := by
  intro a v hl hge c hc
  have := StoreWF_lookup_lt hwf hl
  omega

theorem lookupH_updateH_ne {h : List (Nat × HVal)} {a b : Nat} {v : HVal}
    (hne : b ≠ a) : lookupH (updateH h a v) b = lookupH h b := by
  induction h with
  | nil => rfl
  | cons p rest ih =>
    obtain ⟨c, w⟩ := p
    rw [updateH]
    by_cases hc : c = a
    · rw [if_pos hc, lookupH, if_neg (fun he : a = b => hne he.symm),
        lookupH, if_neg (by rw [hc]; exact fun he => hne he.symm)]
      exact ih
    · rw [if_neg hc, lookupH, lookupH]
      by_cases hcb : c = b
      · rw [if_pos hcb, if_pos hcb]
      · rw [if_neg hcb, if_neg hcb]
        exact ih

theorem lookupH_updateH_cases {h : List (Nat × HVal)} {a b : Nat}
    {v v' : HVal} (hl : lookupH (updateH h a v) b = some v') :
    (b = a ∧ v' = v) ∨ lookupH h b = some v' := by
  induction h with
  | nil => cases hl
  | cons p rest ih =>
    obtain ⟨c, w⟩ := p
    rw [updateH] at hl
    by_cases hc : c = a
    · rw [if_pos hc] at hl
      rw [lookupH] at hl
      by_cases hab : a = b
      · rw [if_pos hab] at hl
        cases hl
        exact Or.inl ⟨hab.symm, rfl⟩
      · rw [if_neg hab] at hl
        rcases ih hl with hcase | hcase
        · exact Or.inl hcase
        · right
          rw [lookupH, if_neg (by rw [hc]; exact hab)]
          exact hcase
    · rw [if_neg hc] at hl
      rw [lookupH] at hl
      by_cases hcb : c = b
      · rw [if_pos hcb] at hl
        right
        rw [lookupH, if_pos hcb]
        exact hl
      · rw [if_neg hcb] at hl
        rcases ih hl with hcase | hcase
        · exact Or.inl hcase
        · right
          rw [lookupH, if_neg hcb]
          exact hcase

theorem updateH_WF {st : Store} (hwf : StoreWF st) {a : Nat}
    (ha : a < st.next) (v : HVal) :
    StoreWF ⟨updateH st.heap a v, st.next⟩ := by
  intro p hp
  show p.1 < st.next
  have : ∀ (h : List (Nat × HVal)), (∀ q ∈ h, q.1 < st.next) →
      ∀ q ∈ updateH h a v, q.1 < st.next := by
    intro h
    induction h with
    | nil => intro _ q hq; cases hq
    | cons r rest ih =>
      intro hall q hq
      rw [updateH] at hq
      by_cases hr : r.1 = a
      · rw [if_pos hr] at hq
        rcases List.mem_cons.mp hq with he | htail
        · rw [he]
          exact ha
        · exact ih (fun s hs => hall s (List.mem_cons.mpr (Or.inr hs))) q
            htail
      · rw [if_neg hr] at hq
        rcases List.mem_cons.mp hq with he | htail
        · rw [he]
          exact hall r (List.mem_cons_self r rest)
        · exact ih (fun s hs => hall s (List.mem_cons.mpr (Or.inr hs))) q
            htail
  exact this st.heap (fun q hq => hwf q hq) p hp

theorem updateH_freshClosed {st : Store} {base a : Nat} {v : HVal}
    (hfc : freshClosed base st) (hsub : ∀ c ∈ childrenH v, base ≤ c) :
    freshClosed base ⟨updateH st.heap a v, st.next⟩ := by
  intro a' v' hl hge c hc
  rcases lookupH_updateH_cases hl with ⟨_, hv⟩ | hold
  · rw [hv] at hc
    exact hsub c hc
  · exact hfc a' v' hold hge c hc

theorem alloc_cons_WF {st : Store} (hwf : StoreWF st) (v : HVal) :
    StoreWF ⟨(st.next, v) :: st.heap, st.next + 1⟩ := by
  intro p hp
  rcases List.mem_cons.mp hp with he | htail
  · rw [he]
    show st.next < st.next + 1
    omega
  · have := hwf p htail
    show p.1 < st.next + 1
    omega

theorem alloc_cons_lookup {st : Store} {b : Nat} (hb : b < st.next)
    (v : HVal) : lookupH ((st.next, v) :: st.heap) b = lookupH st.heap b := by
  rw [lookupH, if_neg (by omega)]

theorem alloc_cons_freshClosed {st : Store} {base : Nat} {v : HVal}
    (hfc : freshClosed base st) (hsub : ∀ c ∈ childrenH v, base ≤ c) :
    freshClosed base ⟨(st.next, v) :: st.heap, st.next + 1⟩ := by
  intro a v' hl hge c hc
  rw [lookupH] at hl
  by_cases hn : st.next = a
  · rw [if_pos hn] at hl
    cases hl
    exact hsub c hc
  · rw [if_neg hn] at hl
    exact hfc a v' hl hge c hc

theorem lookupKVH_mem_snd {k : String} {kvs : List (String × Nat)}
    {a : Nat} (h : lookupKVH k kvs = some a) : a ∈ kvs.map Prod.snd := by
  induction kvs with
  | nil => cases h
  | cons p rest ih =>
    obtain ⟨k', b⟩ := p
    rw [lookupKVH] at h
    by_cases hk : k' = k
    · rw [if_pos hk] at h
      cases h
      exact List.mem_cons.mpr (Or.inl rfl)
    · rw [if_neg hk] at h
      exact List.mem_cons.mpr (Or.inr (ih h))

theorem removeKVH_snd_subset {k : String} {kvs : List (String × Nat)}
    {c : Nat} (h : c ∈ (removeKVH k kvs).map Prod.snd) :
    c ∈ kvs.map Prod.snd := by
  induction kvs with
  | nil => cases h
  | cons p rest ih =>
    rw [removeKVH] at h
    by_cases hk : p.1 = k
    · rw [if_pos hk] at h
      exact List.mem_cons.mpr (Or.inr (ih h))
    · rw [if_neg hk] at h
      rcases List.mem_cons.mp (by exact h) with he | htail
      · exact List.mem_cons.mpr (Or.inl he)
      · exact List.mem_cons.mpr (Or.inr (ih htail))

/-- One allocation-then-rest step of the deepcopy recursion: allot a
node whose children are bounded, copy the remaining roots with the
induction hypothesis, and collect the combined specification. -/
theorem deepcopy_alloc_step (fuel : Nat) (B : Nat) (st1 : Store)
    (rest as'' : List Nat) (st' : Store) (node : HVal)
    (hB : B ≤ st1.next) (hwf1 : StoreWF st1)
    (IH : ∀ (s : Store) (xs ys : List Nat) (s' : Store), StoreWF s →
      deepcopyAddrs fuel s xs = some (ys, s') → DCSpec s ys s')
    (hch : ∀ base, base ≤ B → ∀ c ∈ childrenH node, base ≤ c)
    (h : (deepcopyAddrs fuel ⟨(st1.next, node) :: st1.heap, st1.next + 1⟩
        rest).map (fun r => (st1.next :: r.1, r.2)) = some (as'', st')) :
    StoreWF st' ∧ st1.next + 1 ≤ st'.next ∧
    (∀ b, b < st1.next → lookupH st'.heap b = lookupH st1.heap b) ∧
    (∀ x ∈ as'', st1.next ≤ x) ∧
    (∀ base, base ≤ B → freshClosed base st1 → freshClosed base st') := by
  cases hrec : deepcopyAddrs fuel ⟨(st1.next, node) :: st1.heap,
      st1.next + 1⟩ rest with
  | none => rw [hrec] at h; cases h
  | some pr =>
    obtain ⟨rest', st2⟩ := pr
    rw [hrec] at h
    injection h with h1
    have h2 : st1.next :: rest' = as'' := congrArg Prod.fst h1
    have h3 : st2 = st' := congrArg Prod.snd h1
    subst h2
    subst h3
    obtain ⟨hwf2, hle2, hlook2, hfresh2, hfc2⟩ :=
      IH _ rest rest' st2 (alloc_cons_WF hwf1 node) hrec
    have hle2' : st1.next + 1 ≤ st2.next := hle2
    have hlook2' : ∀ b, b < st1.next + 1 →
        lookupH st2.heap b = lookupH ((st1.next, node) :: st1.heap) b :=
      hlook2
    have hfresh2' : ∀ x ∈ rest', st1.next + 1 ≤ x := hfresh2
    have hfc2' : ∀ base, base ≤ st1.next + 1 →
        freshClosed base ⟨(st1.next, node) :: st1.heap, st1.next + 1⟩ →
        freshClosed base st2 := hfc2
    refine ⟨hwf2, by omega, ?_, ?_, ?_⟩
    · intro b hb
      rw [hlook2' b (by omega)]
      exact alloc_cons_lookup hb node
    · intro x hx
      rcases List.mem_cons.mp hx with he | htail
      · omega
      · have := hfresh2' x htail
        omega
    · intro base hbase hfc
      refine hfc2' base (by omega) ?_
      exact alloc_cons_freshClosed hfc (hch base hbase)

/-- The deepcopy specification: the store only grows, pre-existing
addresses keep their nodes, every copy address is fresh, and fresh
closedness is preserved. -/
theorem deepcopyAddrs_spec :
    ∀ (fuel : Nat) (st : Store) (as as' : List Nat) (st' : Store),
      StoreWF st → deepcopyAddrs fuel st as = some (as', st') →
      DCSpec st as' st' := by
  intro fuel
  induction fuel with
  | zero =>
    intro st as as' st' hwf h
    cases as with
    | nil =>
      rw [deepcopyAddrs] at h
      cases h
      exact ⟨hwf, Nat.le_refl _, fun _ _ => rfl,
        (by intro x hx; cases hx), fun _ _ hfc => hfc⟩
    | cons a rest => cases h
  | succ fuel ih =>
    intro st as as' st' hwf h
    cases as with
    | nil =>
      rw [deepcopyAddrs] at h
      cases h
      exact ⟨hwf, Nat.le_refl _, fun _ _ => rfl,
        (by intro x hx; cases hx), fun _ _ hfc => hfc⟩
    | cons a rest =>
      rw [deepcopyAddrs] at h
      cases hl : lookupH st.heap a with
      | none => rw [hl] at h; cases h
      | some v =>
        cases v with
        | hNull =>
          simp only [hl, allocH] at h
          obtain ⟨hwf', hle, hlook, hfresh, hfc⟩ :=
            deepcopy_alloc_step fuel st.next st rest as' st' .hNull
              (Nat.le_refl _) hwf ih (by intro _ _ c hc; cases hc) h
          exact ⟨hwf', by omega, hlook, hfresh, hfc⟩
        | hBool b0 =>
          simp only [hl, allocH] at h
          obtain ⟨hwf', hle, hlook, hfresh, hfc⟩ :=
            deepcopy_alloc_step fuel st.next st rest as' st' (.hBool b0)
              (Nat.le_refl _) hwf ih (by intro _ _ c hc; cases hc) h
          exact ⟨hwf', by omega, hlook, hfresh, hfc⟩
        | hInt n =>
          simp only [hl, allocH] at h
          obtain ⟨hwf', hle, hlook, hfresh, hfc⟩ :=
            deepcopy_alloc_step fuel st.next st rest as' st' (.hInt n)
              (Nat.le_refl _) hwf ih (by intro _ _ c hc; cases hc) h
          exact ⟨hwf', by omega, hlook, hfresh, hfc⟩
        | hStr s =>
          simp only [hl, allocH] at h
          obtain ⟨hwf', hle, hlook, hfresh, hfc⟩ :=
            deepcopy_alloc_step fuel st.next st rest as' st' (.hStr s)
              (Nat.le_refl _) hwf ih (by intro _ _ c hc; cases hc) h
          exact ⟨hwf', by omega, hlook, hfresh, hfc⟩
        | hList cs =>
          simp only [hl] at h
          cases hcs : deepcopyAddrs fuel st cs with
          | none => rw [hcs] at h; cases h
          | some prc =>
            obtain ⟨cs', st1⟩ := prc
            rw [hcs] at h
            simp only [allocH] at h
            obtain ⟨hwf1, hle1, hlook1, hfresh1, hfc1⟩ :=
              ih st cs cs' st1 hwf hcs
            obtain ⟨hwf', hle, hlook, hfresh, hfc⟩ :=
              deepcopy_alloc_step fuel st.next st1 rest as' st' (.hList cs')
                hle1 hwf1 ih
                (by
                  intro base hbase c hc
                  have := hfresh1 c hc
                  omega) h
            refine ⟨hwf', by omega, ?_, ?_, ?_⟩
            · intro b hb
              rw [hlook b (by omega)]
              exact hlook1 b hb
            · intro x hx
              have := hfresh x hx
              omega
            · intro base hbase hfc0
              exact hfc base hbase (hfc1 base hbase hfc0)
        | hDict kvs =>
          simp only [hl] at h
          cases hcs : deepcopyAddrs fuel st (kvs.map Prod.snd) with
          | none => rw [hcs] at h; cases h
          | some prc =>
            obtain ⟨vs', st1⟩ := prc
            rw [hcs] at h
            simp only [allocH] at h
            obtain ⟨hwf1, hle1, hlook1, hfresh1, hfc1⟩ :=
              ih st (kvs.map Prod.snd) vs' st1 hwf hcs
            obtain ⟨hwf', hle, hlook, hfresh, hfc⟩ :=
              deepcopy_alloc_step fuel st.next st1 rest as' st'
                (.hDict ((kvs.map Prod.fst).zip vs')) hle1 hwf1 ih
                (by
                  intro base hbase c hc
                  rw [childrenH] at hc
                  obtain ⟨p, hp, hpc⟩ := List.mem_map.mp hc
                  have hcv : c ∈ vs' := by
                    rw [← hpc]
                    exact (List.of_mem_zip hp).2
                  have := hfresh1 c hcv
                  omega) h
            refine ⟨hwf', by omega, ?_, ?_, ?_⟩
            · intro b hb
              rw [hlook b (by omega)]
              exact hlook1 b hb
            · intro x hx
              have := hfresh x hx
              omega
            · intro base hbase hfc0
              exact hfc base hbase (hfc1 base hbase hfc0)

/-- The segment loop only mutates fresh addresses: lookups below base
are untouched and fresh closedness survives. -/
theorem stripSegAddrs_spec (base : Nat) :
    ∀ (segAddrs : List Nat) (st st' : Store),
      (∀ x ∈ segAddrs, base ≤ x) → freshClosed base st →
      stripSegAddrs st segAddrs = some st' →
      (∀ b, b < base → lookupH st'.heap b = lookupH st.heap b) ∧
      freshClosed base st' ∧ st'.next = st.next := by
  intro segAddrs
  induction segAddrs with
  | nil =>
    intro st st' _ hfc h
    rw [stripSegAddrs] at h
    cases h
    exact ⟨fun _ _ => rfl, hfc, rfl⟩
  | cons a rest ih =>
    intro st st' hmem hfc h
    rw [stripSegAddrs] at h
    cases hl : lookupH st.heap a with
    | none => rw [hl] at h; cases h
    | some v =>
      cases v with
      | hDict skvs =>
        simp only [hl] at h
        have ha : base ≤ a := hmem a (List.mem_cons_self a rest)
        have hchild : ∀ c ∈ childrenH
            (HVal.hDict (removeKVH "aircraft" skvs)), base ≤ c := by
          intro c hc
          rw [childrenH] at hc
          exact hfc a (.hDict skvs) hl ha c (removeKVH_snd_subset hc)
        have hfc1 : freshClosed base
            ⟨updateH st.heap a (.hDict (removeKVH "aircraft" skvs)),
              st.next⟩ :=
          updateH_freshClosed hfc hchild
        obtain ⟨hframe, hfc', hnext⟩ := ih _ st'
          (fun x hx => hmem x (List.mem_cons.mpr (Or.inr hx))) hfc1 h
        refine ⟨?_, hfc', hnext⟩
        intro b hb
        rw [hframe b hb]
        exact lookupH_updateH_ne (by omega)
      | hNull => rw [hl] at h; cases h
      | hBool b0 => rw [hl] at h; cases h
      | hInt n => rw [hl] at h; cases h
      | hStr s => rw [hl] at h; cases h
      | hList l => rw [hl] at h; cases h

/-- The itinerary loop dereferences only fresh addresses and mutates
only fresh segment dicts. -/
theorem stripItinAddrs_spec (base : Nat) :
    ∀ (itAddrs : List Nat) (st st' : Store),
      (∀ x ∈ itAddrs, base ≤ x) → freshClosed base st →
      stripItinAddrs st itAddrs = some st' →
      (∀ b, b < base → lookupH st'.heap b = lookupH st.heap b) ∧
      freshClosed base st' ∧ st'.next = st.next := by
  intro itAddrs
  induction itAddrs with
  | nil =>
    intro st st' _ hfc h
    rw [stripItinAddrs] at h
    cases h
    exact ⟨fun _ _ => rfl, hfc, rfl⟩
  | cons a rest ih =>
    intro st st' hmem hfc h
    rw [stripItinAddrs] at h
    cases hl : lookupH st.heap a with
    | none => rw [hl] at h; cases h
    | some v =>
      cases v with
      | hDict ikvs =>
        simp only [hl] at h
        have ha : base ≤ a := hmem a (List.mem_cons_self a rest)
        cases hsa : lookupKVH "segments" ikvs with
        | none =>
          rw [hsa] at h
          exact ih st st'
            (fun x hx => hmem x (List.mem_cons.mpr (Or.inr hx))) hfc h
        | some sa =>
          simp only [hsa] at h
          have hsab : base ≤ sa :=
            hfc a (.hDict ikvs) hl ha sa (lookupKVH_mem_snd hsa)
          cases hls : lookupH st.heap sa with
          | none => rw [hls] at h; cases h
          | some w =>
            cases w with
            | hList segAddrs =>
              simp only [hls] at h
              cases hss : stripSegAddrs st segAddrs with
              | none => rw [hss] at h; cases h
              | some st1 =>
                rw [hss] at h
                have hsegmem : ∀ x ∈ segAddrs, base ≤ x := by
                  intro x hx
                  exact hfc sa (.hList segAddrs) hls hsab x hx
                obtain ⟨hframe1, hfc1, hnext1⟩ :=
                  stripSegAddrs_spec base segAddrs st st1 hsegmem hfc hss
                obtain ⟨hframe2, hfc2, hnext2⟩ := ih st1 st'
                  (fun x hx => hmem x (List.mem_cons.mpr (Or.inr hx)))
                  hfc1 h
                refine ⟨?_, hfc2, by omega⟩
                intro b hb
                rw [hframe2 b hb]
                exact hframe1 b hb
            | hNull => rw [hls] at h; cases h
            | hBool b0 => rw [hls] at h; cases h
            | hInt n => rw [hls] at h; cases h
            | hStr s => rw [hls] at h; cases h
            | hDict d => rw [hls] at h; cases h
      | hNull => rw [hl] at h; cases h
      | hBool b0 => rw [hl] at h; cases h
      | hInt n => rw [hl] at h; cases h
      | hStr s => rw [hl] at h; cases h
      | hList l => rw [hl] at h; cases h

/-- The whole strip body touches only the fresh copy. -/
theorem stripHeapOffer_spec {base : Nat} {st st' : Store} {a : Nat}
    (ha : base ≤ a) (hfc : freshClosed base st)
    (h : stripHeapOffer st a = some st') :
    ∀ b, b < base → lookupH st'.heap b = lookupH st.heap b := by
  rw [stripHeapOffer] at h
  cases hl : lookupH st.heap a with
  | none => rw [hl] at h; cases h
  | some v =>
    cases v with
    | hDict kvs =>
      simp only [hl] at h
      cases hia : lookupKVH "itineraries" kvs with
      | none =>
        rw [hia] at h
        cases h
        exact fun _ _ => rfl
      | some ia =>
        simp only [hia] at h
        have hiab : base ≤ ia :=
          hfc a (.hDict kvs) hl ha ia (lookupKVH_mem_snd hia)
        cases hli : lookupH st.heap ia with
        | none => rw [hli] at h; cases h
        | some w =>
          cases w with
          | hList itAddrs =>
            simp only [hli] at h
            have hitmem : ∀ x ∈ itAddrs, base ≤ x := by
              intro x hx
              exact hfc ia (.hList itAddrs) hli hiab x hx
            exact (stripItinAddrs_spec base itAddrs st st' hitmem hfc h).1
          | hNull => rw [hli] at h; cases h
          | hBool b0 => rw [hli] at h; cases h
          | hInt n => rw [hli] at h; cases h
          | hStr s => rw [hli] at h; cases h
          | hDict d => rw [hli] at h; cases h
    | hNull => rw [hl] at h; cases h
    | hBool b0 => rw [hl] at h; cases h
    | hInt n => rw [hl] at h; cases h
    | hStr s => rw [hl] at h; cases h
    | hList l => rw [hl] at h; cases h

/-- The frame property of the heap-level sanitizer: every address
allocated before the call still holds exactly its old node
afterwards; in particular the original offer object is unmodified. -/
theorem sanitizeHeap_frame (fuel : Nat) (st : Store) (a c : Nat)
    (st2 : Store) (hwf : StoreWF st)
    (h : sanitizeHeap fuel st a = some (c, st2)) :
    ∀ b, b < st.next → lookupH st2.heap b = lookupH st.heap b := by
  rw [sanitizeHeap] at h
  cases hdc : deepcopyAddrs fuel st [a] with
  | none => rw [hdc] at h; cases h
  | some pr =>
    obtain ⟨as', st1⟩ := pr
    rw [hdc] at h
    cases as' with
    | nil => cases h
    | cons c0 tail =>
      cases tail with
      | nil =>
        have h' : Option.map (fun s => (c0, s)) (stripHeapOffer st1 c0) =
            some (c, st2) := h
        cases hstrip : stripHeapOffer st1 c0 with
        | none => rw [hstrip] at h'; cases h'
        | some stS =>
          rw [hstrip] at h'
          injection h' with h1
          have h2 : c0 = c := congrArg Prod.fst h1
          have h3 : stS = st2 := congrArg Prod.snd h1
          subst h2
          subst h3
          obtain ⟨hwf1, hle1, hlook1, hfresh1, hfc1⟩ :=
            deepcopyAddrs_spec fuel st [a] [c0] st1 hwf hdc
          have hc0 : st.next ≤ c0 :=
            hfresh1 c0 (List.mem_cons_self c0 [])
          have hfcfresh : freshClosed st.next st1 :=
            hfc1 st.next (Nat.le_refl _) (freshClosed_of_WF hwf)
          have hframe2 := stripHeapOffer_spec hc0 hfcfresh hstrip
          intro b hb
          rw [hframe2 b hb]
          exact hlook1 b hb
      | cons c1 tail2 => cases h

/-! ## Claim C4 -/

/-- Claim C4, counterexample: search_one_way_flights with SerpApi
enabled and a truthy SerpApi response converting to zero flights does
fall back to fast-flights, so a valid empty answer from the non-final
source is not returned as the result, contrary to the claim. -/
theorem c4_one_way_falls_back_on_empty :
    search_one_way_flights_source true (some []) = .fastflightsSource :=
  rfl

/-- Claim C4, amended: hybrid_flight_search does not fall back on a
valid empty SerpAPI answer, returns it tagged with the serpapi source
so it stays distinguishable from the fast-flights fallback, and falls
back only when the SerpAPI call raises; search_one_way_flights however
does fall back to fast-flights when the SerpApi conversion yields zero
flights, and keeps the SerpApi answer only when it is non-empty. -/
theorem c4_hybrid_no_fallback_on_empty :
    (∀ flights,
      hybrid_flight_search_route true (.ok flights) = .serpResponse flights) ∧
    (∀ e, hybrid_flight_search_route true (.error e) = .fastResponse) ∧
    hybridSourceTag (hybrid_flight_search_route true (.ok [])) = "serpapi" ∧
    hybridSourceTag HybridResponse.fastResponse = "fast-flights" ∧
    search_one_way_flights_source true (some []) = .fastflightsSource ∧
    (∀ f fs,
      search_one_way_flights_source true (some (f :: fs)) = .serpapiSource) :=
  ⟨fun _ => rfl, fun _ => rfl, rfl, rfl, rfl, fun f fs => by
    simp [search_one_way_flights_source]⟩

/-! ## Claim C5 -/

/-- Claim C5, counterexample: _flight_to_dict_v2 successfully returns
a flight record whose segments list is empty while its stops field is
1, so neither conjunct of the claimed invariant holds for every
successfully returned record. -/
theorem c5_v2_record_empty_segments :
    (flight_to_dict_v2 exV2FlightOneStop).segments = [] ∧
    (flight_to_dict_v2 exV2FlightOneStop).stops = some 1 :=
  ⟨rfl, rfl⟩

/-- Claim C5, amended: flights normalized from a SerpApi response with
a non-empty raw segment array satisfy the invariant (segments
non-empty and stops equal to the segment count minus one), but records
produced by the fast-flights v2.2 adapter always carry an empty
segments list with the stops value passed through from the source
object. -/
theorem c5_stops_segments_invariant_amended :
    (∀ fd ib, fd.flights ≠ [] →
      (normalize_serpapi_flight fd ib).segments ≠ [] ∧
      (normalize_serpapi_flight fd ib).stops =
        ((normalize_serpapi_flight fd ib).segments.length : Int) - 1) ∧
    (∀ flight, (flight_to_dict_v2 flight).segments = [] ∧
      (flight_to_dict_v2 flight).stops = flight.stops) := by
  constructor
  · intro fd ib hne
    have hlen : (mapWithIndex normalizeSegment 0 fd.flights).length =
        fd.flights.length := mapWithIndex_length _ _ _
    have hpos : fd.flights.length > 0 := List.length_pos.mpr hne
    have hseg : (normalize_serpapi_flight fd ib).segments =
        mapWithIndex normalizeSegment 0 fd.flights := rfl
    constructor
    · rw [hseg]
      intro hnil
      rw [hnil] at hlen
      simp at hlen
      omega
    · show (if (mapWithIndex normalizeSegment 0 fd.flights).length > 0 then
          ((mapWithIndex normalizeSegment 0 fd.flights).length : Int) - 1
        else 0) = _
      rw [if_pos (by omega)]
      rfl
  · intro flight
    exact ⟨rfl, rfl⟩

/-- Claim C5, witness for the amended theorem: a SerpApi flight with
two raw segments normalizes to two segments and one stop. -/
theorem c5_stops_segments_invariant_amended_witness :
    exSerpFlightTwoSegs.flights ≠ [] ∧
    ((normalize_serpapi_flight exSerpFlightTwoSegs true).segments ≠ [] ∧
      (normalize_serpapi_flight exSerpFlightTwoSegs true).stops =
        ((normalize_serpapi_flight exSerpFlightTwoSegs true).segments.length :
          Int) - 1) :=
  ⟨by decide,
    c5_stops_segments_invariant_amended.1 exSerpFlightTwoSegs true (by decide)⟩

/-! ## Claim C7 -/

/-- Claim C7, counterexample: the fast-flights v2.2 adapter passes the
formatted currency string 268 dollars through as the price of its
normalized record, so an un-parsed currency string does cross the
adapter boundary. -/
theorem c7_currency_string_passes_adapter :
    (flight_to_dict_v2 exV2FlightDollar).price = some (.pstr "$268") ∧
    isFormattedCurrencyString (.pstr "$268") = true :=
  ⟨rfl, by decide⟩

/-- Claim C7, amended: both adapters pass the provider price value
through unchanged (SerpApi supplies integers but fast-flights supplies
formatted strings), and numeric comparability is established at the
consumption sites by parse_price, which maps every price value to an
integer or the infinity sentinel. -/
theorem c7_price_passthrough_amended :
    (∀ flight, (flight_to_dict_v2 flight).price = flight.price) ∧
    (∀ fd ib, (normalize_serpapi_flight fd ib).price = fd.price) ∧
    (∀ v, (∃ n, parse_price v = .fin n) ∨ parse_price v = .inf) :=
  ⟨fun _ => rfl, fun _ _ => rfl, parse_price_total⟩

/-! ## Claim C9 -/

/-- Claim C9: with return_cheapest_only, a one-way search over a
non-empty converted flight list returns exactly one flight, a member
of the list below which no other member's parsed price falls; in the
two-flight scenario priced 150 and 200 exactly the 150 flight is
returned. -/
theorem c9_cheapest_only_selection :
    (∀ (flights_data : List NormalizedFlight) (max_results : Int),
      flights_data ≠ [] →
      ∃ c, processOneWayFlights flights_data true max_results = [c] ∧
        c ∈ flights_data ∧
        ∀ f ∈ flights_data,
          ppLt (flightPriceKey f) (flightPriceKey c) = false) ∧
    processOneWayFlights [exFlight150, exFlight200] true 10 =
      [exFlight150] := by
  constructor
  · intro flights_data max_results hne
    obtain ⟨c, hmin, hmem, hbelow⟩ := pyMinByKey_spec flightPriceKey
      flights_data hne
    refine ⟨c, ?_, hmem, hbelow⟩
    have hpos : flights_data.length > 0 := List.length_pos.mpr hne
    simp [processOneWayFlights, hmin, hpos]
  · decide

/-- Claim C9, witness: the scenario list of two flights priced 150 and
200 is non-empty and the selection returns exactly one flight. -/
theorem c9_cheapest_only_selection_witness :
    ([exFlight150, exFlight200] : List NormalizedFlight) ≠ [] ∧
    (∃ c, processOneWayFlights [exFlight150, exFlight200] true 10 = [c] ∧
      c ∈ [exFlight150, exFlight200] ∧
      ∀ f ∈ [exFlight150, exFlight200],
        ppLt (flightPriceKey f) (flightPriceKey c) = false) :=
  ⟨by decide, c9_cheapest_only_selection.1 [exFlight150, exFlight200] 10
    (by decide)⟩

/-! ## Claim C10 -/

/-- Claim C10: parse_price is total, mapping every input (None, int,
str, or anything else) to an integer or the infinity sentinel, and
cheapest selection over any non-empty flight list returns a member of
the list whose parsed price is an integer whenever any member's parsed
price is. -/
theorem c10_parse_price_total_and_selection_safe :
    (∀ v, (∃ n, parse_price v = .fin n) ∨ parse_price v = .inf) ∧
    (∀ (flights : List NormalizedFlight), flights ≠ [] →
      ∃ c, pyMinByKey flightPriceKey flights = some c ∧ c ∈ flights ∧
        ∀ g ∈ flights, ∀ n, flightPriceKey g = .fin n →
          ∃ m, flightPriceKey c = .fin m) := by
  refine ⟨parse_price_total, ?_⟩
  intro flights hne
  obtain ⟨c, hmin, hmem, hbelow⟩ := pyMinByKey_spec flightPriceKey flights hne
  exact ⟨c, hmin, hmem, fun g hg n hgn =>
    key_fin_of_not_below hgn (hbelow g hg)⟩

/-- Claim C10, witness: over a list holding an unparseable-price
flight and a 150-priced flight, selection returns a flight with an
integer parsed price. -/
theorem c10_parse_price_total_and_selection_safe_witness :
    ([exFlightBadPrice, exFlight150] : List NormalizedFlight) ≠ [] ∧
    (∃ c, pyMinByKey flightPriceKey [exFlightBadPrice, exFlight150] =
        some c ∧
      c ∈ [exFlightBadPrice, exFlight150] ∧
      ∀ g ∈ [exFlightBadPrice, exFlight150], ∀ n,
        flightPriceKey g = .fin n → ∃ m, flightPriceKey c = .fin m) :=
  ⟨by decide, c10_parse_price_total_and_selection_safe.2
    [exFlightBadPrice, exFlight150] (by decide)⟩

/-! ## Claim C3 -/

theorem coerce_price_number (p : Option PriceVal) (a : Int)
    (h : coerceCombinePrice (p.getD (.pint 0)) = .ok a) :
    priceNumberOfField p = some a := by
  cases p with
  | none =>
    simp only [Option.getD, coerceCombinePrice, Except.ok.injEq] at h
    simp [priceNumberOfField, h]
  | some v =>
    cases v with
    | pint n =>
      simp only [Option.getD, coerceCombinePrice, Except.ok.injEq] at h
      simp [priceNumberOfField, h]
    | pstr s =>
      simp only [Option.getD, coerceCombinePrice] at h
      cases hp : pyParseInt (stripDollarCommas s) with
      | none => rw [hp] at h; cases h
      | some n =>
        rw [hp] at h
        simp only [Except.ok.injEq] at h
        simp [priceNumberOfField, hp, h]
    | pnone => simp [Option.getD, coerceCombinePrice] at h
    | pother => simp [Option.getD, coerceCombinePrice] at h

/-- Claim C3: whenever combine_outbound_and_return_flights builds a
combined round trip (rather than falling into its exception handler),
the combined price is exactly the numeric value of the outbound price
plus the numeric value of the return price. -/
theorem c3_combined_price_is_sum :
    ∀ outbound_flight return_flight c,
      combine_outbound_and_return_flights outbound_flight return_flight =
        .combined c →
      ∃ a b, priceNumberOfField outbound_flight.price = some a ∧
        priceNumberOfField return_flight.price = some b ∧
        c.price = a + b := by
  intro ob rt c h
  unfold combine_outbound_and_return_flights at h
  cases h1 : coerceCombinePrice (ob.price.getD (.pint 0)) with
  | error e => rw [h1] at h; cases h
  | ok a =>
    cases h2 : coerceCombinePrice (rt.price.getD (.pint 0)) with
    | error e => rw [h1, h2] at h; cases h
    | ok b =>
      rw [h1, h2] at h
      refine ⟨a, b, coerce_price_number _ _ h1, coerce_price_number _ _ h2,
        ?_⟩
      cases h
      rfl

/-- Claim C3, witness: combining the 150-priced outbound with the
100-dollar-string return yields the combined record priced 250. -/
theorem c3_combined_price_is_sum_witness :
    combine_outbound_and_return_flights exOutbound150 exReturn100 =
      .combined exCombined250 ∧
    (∃ a b, priceNumberOfField exOutbound150.price = some a ∧
      priceNumberOfField exReturn100.price = some b ∧
      exCombined250.price = a + b) :=
  ⟨by decide,
    c3_combined_price_is_sum exOutbound150 exReturn100 exCombined250
      (by decide)⟩

/-! ## Claim C1 -/

/-- Claim C1, counterexample: a 14-day window with no stay constraints
yields 105 date combinations, yet under the default pagination
(offset 0, limit 20) the request is accepted and its first 20 pairs
are searched, because the ceiling is checked against the paginated
slice rather than the full combination count. -/
theorem c1_oversized_window_accepted_with_default_limit :
    (datePairs 14 none none).length = 105 ∧
    search_round_trips_in_date_range_gate 14 none none 0 20 =
      .accepted (paginatePairs (datePairs 14 none none) 0 20) ∧
    (paginatePairs (datePairs 14 none none) 0 20).length = 20 :=
  ⟨by decide, by decide, by decide⟩

/-- Claim C1, amended: the governor rejects a request exactly when the
paginated slice of its date pairs exceeds the ceiling of 30, reporting
the slice length, the ceiling and the total enumeration, and issuing
no scraping request; a slice at or below 30 (in particular exactly 30)
is accepted with one scraping request per pair.  The 14-day scenario
holds when pagination is disabled (limit 0): 105 combinations,
rejected with requested 105 against ceiling 30. -/
theorem c1_rate_governor_gate :
    (∀ w min_stay max_stay offset limit, 0 < w →
      ((paginatePairs (datePairs w min_stay max_stay) offset limit).length >
          MAX_DATE_COMBINATIONS →
        search_round_trips_in_date_range_gate w min_stay max_stay offset
            limit =
          .rejected
            (paginatePairs (datePairs w min_stay max_stay) offset
              limit).length
            MAX_DATE_COMBINATIONS
            (datePairs w min_stay max_stay).length ∧
        scrapingRequestCount
          (search_round_trips_in_date_range_gate w min_stay max_stay offset
            limit) = 0) ∧
      ((paginatePairs (datePairs w min_stay max_stay) offset limit).length ≤
          MAX_DATE_COMBINATIONS →
        search_round_trips_in_date_range_gate w min_stay max_stay offset
            limit =
          .accepted
            (paginatePairs (datePairs w min_stay max_stay) offset limit) ∧
        scrapingRequestCount
          (search_round_trips_in_date_range_gate w min_stay max_stay offset
            limit) =
          (paginatePairs (datePairs w min_stay max_stay) offset
            limit).length)) ∧
    (datePairs 14 none none).length = 105 ∧
    search_round_trips_in_date_range_gate 14 none none 0 0 =
      .rejected 105 MAX_DATE_COMBINATIONS 105 ∧
    search_round_trips_in_date_range_gate 14 none none 0 30 =
      .accepted (paginatePairs (datePairs 14 none none) 0 30) ∧
    (paginatePairs (datePairs 14 none none) 0 30).length = 30 := by
  refine ⟨?_, by decide, by decide, by decide, by decide⟩
  intro w min_stay max_stay offset limit hw
  have hw' : ¬ w = 0 := by omega
  constructor
  · intro hgt
    constructor
    · simp only [search_round_trips_in_date_range_gate, if_neg hw']
      rw [if_pos hgt]
    · simp only [search_round_trips_in_date_range_gate, if_neg hw']
      rw [if_pos hgt]
      rfl
  · intro hle
    have hngt : ¬ (paginatePairs (datePairs w min_stay max_stay) offset
        limit).length > MAX_DATE_COMBINATIONS := by omega
    constructor
    · simp only [search_round_trips_in_date_range_gate, if_neg hw']
      rw [if_neg hngt]
    · simp only [search_round_trips_in_date_range_gate, if_neg hw']
      rw [if_neg hngt]
      rfl

/-- Claim C1, witness for the amended theorem: with pagination disabled
the 14-day window is rejected with requested 105 and no scraping
request; a 2-day window under the default limit is accepted with one
request per pair. -/
theorem c1_rate_governor_gate_witness :
    (search_round_trips_in_date_range_gate 14 none none 0 0 =
        .rejected (paginatePairs (datePairs 14 none none) 0 0).length
          MAX_DATE_COMBINATIONS (datePairs 14 none none).length ∧
      scrapingRequestCount
        (search_round_trips_in_date_range_gate 14 none none 0 0) = 0) ∧
    (search_round_trips_in_date_range_gate 2 none none 0 20 =
        .accepted (paginatePairs (datePairs 2 none none) 0 20) ∧
      scrapingRequestCount
        (search_round_trips_in_date_range_gate 2 none none 0 20) =
        (paginatePairs (datePairs 2 none none) 0 20).length) :=
  ⟨(c1_rate_governor_gate.1 14 none none 0 0 (by decide)).1 (by decide),
    (c1_rate_governor_gate.1 2 none none 0 20 (by decide)).2 (by decide)⟩

/-! ## Claim C2 -/

/-- Claim C2: sanitizing a well-shaped offer succeeds and returns a
payload with the aircraft field removed from every segment of every
itinerary and every other field unchanged; and on the heap the
sanitizer only mutates the fresh deep copy, so every object allocated
before the call, in particular the original offer, holds exactly its
old value afterwards. -/
theorem c2_sanitizer_removes_aircraft_and_preserves_rest :
    (∀ offer, wellShapedOffer offer = true →
      ∃ out, sanitize_flight_offer_for_pricing offer = .ok out ∧
        offerSanitized offer out) ∧
    (∀ (fuel : Nat) (st : Store) (a c : Nat) (st2 : Store), StoreWF st →
      sanitizeHeap fuel st a = some (c, st2) →
      ∀ b, b < st.next → lookupH st2.heap b = lookupH st.heap b) :=
  ⟨sanitize_offer_spec,
    fun fuel st a c st2 hwf h => sanitizeHeap_frame fuel st a c st2 hwf h⟩

/-- Claim C2, witness: the two-aircraft offer is well shaped and is
sanitized as specified, and on the concrete store the heap sanitizer
returns the copy at address 13 leaving the original segment dict at
address 4 (and every other original object) untouched. -/
theorem c2_sanitizer_removes_aircraft_and_preserves_rest_witness :
    wellShapedOffer exOfferTwoAircraft = true ∧
    (∃ out,
      sanitize_flight_offer_for_pricing exOfferTwoAircraft = .ok out ∧
      offerSanitized exOfferTwoAircraft out) ∧
    StoreWF exStore ∧
    sanitizeHeap 10 exStore 0 = some (13, exStoreAfter) ∧
    lookupH exStoreAfter.heap 4 = lookupH exStore.heap 4 :=
  ⟨by decide,
    c2_sanitizer_removes_aircraft_and_preserves_rest.1 exOfferTwoAircraft
      (by decide),
    (by show ∀ p ∈ exStore.heap, p.1 < exStore.next
        decide),
    by decide,
    c2_sanitizer_removes_aircraft_and_preserves_rest.2 10 exStore 0 13
      exStoreAfter
      (by show ∀ p ∈ exStore.heap, p.1 < exStore.next
          decide)
      (by decide) 4 (by decide)⟩

/-! ## Claim C8 -/

theorem sanitizeItinerary_id {it : Value}
    (hws : wellShapedItinerary it = true)
    (hfree : ((segsOf it).all fun sg =>
      match sg with
      | .vDict skvs => !hasKeyKV "aircraft" skvs
      | _ => true) = true) :
    sanitizeItinerary it = .ok it := by
  cases it with
  | vDict ikvs =>
    rw [wellShapedItinerary, Bool.and_eq_true] at hws
    cases hseg : lookupKV "segments" ikvs with
    | none => rw [sanitizeItinerary, hseg]
    | some sv =>
      rw [hseg] at hws
      cases sv with
      | vList segs =>
        have hsegs : segsOf (.vDict ikvs) = segs := by
          simp only [segsOf, getField, hseg]
        rw [hsegs] at hfree
        have hallfree := List.all_eq_true.mp hfree
        have hallws := List.all_eq_true.mp hws.2
        have hid : ∀ sg ∈ segs, sanitizeSegment sg = .ok sg := by
          intro sg hsg
          have h1 := hallws sg hsg
          have h2 := hallfree sg hsg
          cases sg with
          | vDict skvs =>
            have hkey : hasKeyKV "aircraft" skvs = false := by
              cases hk : hasKeyKV "aircraft" skvs
              · rfl
              · have h2' : (!hasKeyKV "aircraft" skvs) = true := h2
                rw [hk] at h2'
                cases h2'
            have hnone : lookupKV "aircraft" skvs = none := by
              rw [hasKeyKV] at hkey
              cases hlk : lookupKV "aircraft" skvs
              · rfl
              · rw [hlk] at hkey
                cases hkey
            rw [sanitizeSegment, removeKV_eq_self hnone]
          | vNull => cases h1
          | vBool b => cases h1
          | vInt n => cases h1
          | vStr s => cases h1
          | vList l => cases h1
        rw [sanitizeItinerary]
        simp only [hseg, mapExcept_id hid]
        rw [updateKV_eq_self hws.1 hseg]
      | vNull => cases hws.2
      | vBool b => cases hws.2
      | vInt n => cases hws.2
      | vStr s => cases hws.2
      | vDict d => cases hws.2
  | vNull => cases hws
  | vBool b => cases hws
  | vInt n => cases hws
  | vStr s => cases hws
  | vList l => cases hws

/-- Claim C8: sanitizing a well-shaped offer with no aircraft field on
any segment returns exactly the input payload. -/
theorem c8_sanitize_idempotent :
    ∀ offer, wellShapedOffer offer = true → aircraftFree offer = true →
      sanitize_flight_offer_for_pricing offer = .ok offer := by
  intro offer hws hfree
  cases offer with
  | vDict kvs =>
    rw [wellShapedOffer, Bool.and_eq_true] at hws
    cases hits : lookupKV "itineraries" kvs with
    | none => rw [sanitize_flight_offer_for_pricing, hits]
    | some sv =>
      rw [hits] at hws
      cases sv with
      | vList its =>
        have hall := List.all_eq_true.mp hws.2
        have hfree' : ∀ it ∈ its, ((segsOf it).all fun sg =>
            match sg with
            | .vDict skvs => !hasKeyKV "aircraft" skvs
            | _ => true) = true := by
          rw [aircraftFree] at hfree
          have : itinsOf (.vDict kvs) = its := by
            simp only [itinsOf, getField, hits]
          rw [this] at hfree
          exact List.all_eq_true.mp hfree
        have hid : ∀ it ∈ its, sanitizeItinerary it = .ok it :=
          fun it hit => sanitizeItinerary_id (hall it hit) (hfree' it hit)
        rw [sanitize_flight_offer_for_pricing]
        simp only [hits, mapExcept_id hid]
        rw [updateKV_eq_self hws.1 hits]
      | vNull => cases hws.2
      | vBool b => cases hws.2
      | vInt n => cases hws.2
      | vStr s => cases hws.2
      | vDict d => cases hws.2
  | vNull => cases hws
  | vBool b => cases hws
  | vInt n => cases hws
  | vStr s => cases hws
  | vList l => cases hws

/-- Claim C8, witness: the aircraft-free offer passes both checks and
sanitizes to itself. -/
theorem c8_sanitize_idempotent_witness :
    wellShapedOffer exOfferAircraftFree = true ∧
    aircraftFree exOfferAircraftFree = true ∧
    sanitize_flight_offer_for_pricing exOfferAircraftFree =
      .ok exOfferAircraftFree :=
  ⟨by decide, by decide,
    c8_sanitize_idempotent exOfferAircraftFree (by decide) (by decide)⟩

/-! ## Claim C6 -/

theorem firstSegmentMissingId_spec :
    ∀ (segs : List Value) (j : Nat),
      (∀ sg ∈ segs, wellShapedSegment sg = true) →
      ∃ r, firstSegmentMissingId j segs = .ok r ∧
        (r = none ↔ (segs.all fun sg =>
          match sg with
          | .vDict skvs => hasKeyKV "id" skvs
          | _ => false) = true) := by
  intro segs
  induction segs with
  | nil =>
    intro j _
    exact ⟨none, rfl, by simp⟩
  | cons sg rest ih =>
    intro j hall
    cases sg with
    | vDict skvs =>
      cases hk : hasKeyKV "id" skvs with
      | true =>
        obtain ⟨r, hr, hiff⟩ := ih (j + 1)
          (fun s hs => hall s (List.mem_cons.mpr (Or.inr hs)))
        refine ⟨r, ?_, ?_⟩
        · rw [firstSegmentMissingId, if_pos hk]
          exact hr
        · rw [List.all_cons]
          constructor
          · intro hr0
            rw [Bool.and_eq_true]
            exact ⟨hk, hiff.mp hr0⟩
          · intro hc
            rw [Bool.and_eq_true] at hc
            exact hiff.mpr hc.2
      | false =>
        refine ⟨some j, ?_, ?_⟩
        · rw [firstSegmentMissingId, if_neg (by simp [hk])]
        · constructor
          · intro hc
            cases hc
          · intro hc
            rw [List.all_cons, Bool.and_eq_true] at hc
            have h1 : hasKeyKV "id" skvs = true := hc.1
            rw [hk] at h1
            cases h1
    | vNull =>
      exact absurd (hall _ (List.mem_cons_self _ _))
        (by simp [wellShapedSegment])
    | vBool b =>
      exact absurd (hall _ (List.mem_cons_self _ _))
        (by simp [wellShapedSegment])
    | vInt n =>
      exact absurd (hall _ (List.mem_cons_self _ _))
        (by simp [wellShapedSegment])
    | vStr s =>
      exact absurd (hall _ (List.mem_cons_self _ _))
        (by simp [wellShapedSegment])
    | vList l =>
      exact absurd (hall _ (List.mem_cons_self _ _))
        (by simp [wellShapedSegment])

theorem scanItineraries_spec :
    ∀ (its : List Value) (idx : Nat) (acc : List String),
      (∀ it ∈ its, wellShapedItinerary it = true) →
      ∃ m, scanItineraries idx acc its = .ok m ∧
        (m = [] ↔ (acc = [] ∧ (its.all fun it =>
          (segsOf it).all fun sg =>
            match sg with
            | .vDict skvs => hasKeyKV "id" skvs
            | _ => false) = true)) := by
  intro its
  induction its with
  | nil =>
    intro idx acc _
    exact ⟨acc, rfl, by simp⟩
  | cons it rest ih =>
    intro idx acc hall
    have hwsit := hall it (List.mem_cons_self it rest)
    have halltail : ∀ x ∈ rest, wellShapedItinerary x = true :=
      fun x hx => hall x (List.mem_cons.mpr (Or.inr hx))
    cases it with
    | vDict ikvs =>
      rw [wellShapedItinerary, Bool.and_eq_true] at hwsit
      cases hseg : lookupKV "segments" ikvs with
      | none =>
        obtain ⟨m, hm, hiff⟩ := ih (idx + 1) acc halltail
        refine ⟨m, ?_, ?_⟩
        · rw [scanItineraries, hseg]
          exact hm
        · rw [List.all_cons]
          have hempty : segsOf (.vDict ikvs) = [] := by
            simp only [segsOf, getField, hseg]
          rw [hempty]
          simpa using hiff
      | some sv =>
        rw [hseg] at hwsit
        cases sv with
        | vList segs =>
          have hsegs : segsOf (.vDict ikvs) = segs := by
            simp only [segsOf, getField, hseg]
          obtain ⟨r, hr, hriff⟩ := firstSegmentMissingId_spec segs 0
            (List.all_eq_true.mp hwsit.2)
          cases r with
          | none =>
            have hallid : (segs.all fun sg =>
                match sg with
                | .vDict skvs => hasKeyKV "id" skvs
                | _ => false) = true := hriff.mp rfl
            by_cases hacc : acc = []
            · subst hacc
              obtain ⟨m, hm, hiff⟩ := ih (idx + 1) [] halltail
              refine ⟨m, ?_, ?_⟩
              · rw [scanItineraries]
                simp only [hseg, hr]
                rw [if_neg (by simp)]
                exact hm
              · rw [List.all_cons, hsegs]
                constructor
                · intro h0
                  refine ⟨rfl, ?_⟩
                  rw [Bool.and_eq_true]
                  exact ⟨hallid, ((hiff.mp h0).2)⟩
                · intro hc
                  rw [Bool.and_eq_true] at hc
                  exact hiff.mpr ⟨rfl, hc.2.2⟩
            · refine ⟨acc, ?_, ?_⟩
              · rw [scanItineraries]
                simp only [hseg, hr]
                rw [if_pos (by simpa using hacc)]
              · constructor
                · intro h0
                  exact absurd h0 hacc
                · intro hc
                  exact absurd hc.1 hacc
          | some j =>
            refine ⟨acc ++ [segIdFieldName idx j], ?_, ?_⟩
            · rw [scanItineraries]
              simp only [hseg, hr]
              rw [if_pos (by simp)]
            · constructor
              · intro h0
                exact absurd h0 (by simp)
              · intro hc
                rw [List.all_cons, Bool.and_eq_true, hsegs] at hc
                have : (none : Option Nat) = some j :=
                  (hriff.mpr hc.2.1).symm
                cases this
        | vNull => cases hwsit.2
        | vBool b => cases hwsit.2
        | vInt n => cases hwsit.2
        | vStr s => cases hwsit.2
        | vDict d => cases hwsit.2
    | vNull => cases hwsit
    | vBool b => cases hwsit
    | vInt n => cases hwsit
    | vStr s => cases hwsit
    | vList l => cases hwsit

theorem confirmMissingFields_spec (offer : Value)
    (hws : wellShapedOffer offer = true) :
    ∃ m, confirmMissingFields offer = .ok m ∧
      (m = [] ↔ pricingFieldsPresent offer = true) := by
  cases offer with
  | vDict kvs =>
    rw [wellShapedOffer, Bool.and_eq_true] at hws
    have hm0 : ((if hasKeyKV "travelerPricings" kvs then []
          else ["travelerPricings"]) ++
        (if hasKeyKV "source" kvs then [] else ["source"]) =
          ([] : List String)) ↔
        (hasKeyKV "travelerPricings" kvs && hasKeyKV "source" kvs) =
          true := by
      by_cases h1 : hasKeyKV "travelerPricings" kvs = true
      · by_cases h2 : hasKeyKV "source" kvs = true
        · simp [h1, h2]
        · simp [h1, h2]
      · by_cases h2 : hasKeyKV "source" kvs = true
        · simp [h1, h2]
        · simp [h1, h2]
    cases hits : lookupKV "itineraries" kvs with
    | none =>
      refine ⟨_, by rw [confirmMissingFields, hits], ?_⟩
      have hsegs : allSegmentsHaveId (.vDict kvs) = true := by
        rw [allSegmentsHaveId]
        simp only [itinsOf, getField, hits]
        rfl
      rw [pricingFieldsPresent, hsegs]
      rw [Bool.and_eq_true, Bool.and_eq_true]
      constructor
      · intro h0
        have := hm0.mp h0
        rw [Bool.and_eq_true] at this
        exact ⟨this, rfl⟩
      · intro hc
        apply hm0.mpr
        rw [Bool.and_eq_true]
        exact hc.1
    | some sv =>
      rw [hits] at hws
      cases sv with
      | vList its =>
        obtain ⟨m, hm, hiff⟩ := scanItineraries_spec its 0 _
          (List.all_eq_true.mp hws.2)
        refine ⟨m, ?_, ?_⟩
        · rw [confirmMissingFields, hits]
          exact hm
        · have hsegs : allSegmentsHaveId (.vDict kvs) =
              (its.all fun it => (segsOf it).all fun sg =>
                match sg with
                | .vDict skvs => hasKeyKV "id" skvs
                | _ => false) := by
            rw [allSegmentsHaveId]
            simp only [itinsOf, getField, hits]
          rw [pricingFieldsPresent, hsegs]
          rw [Bool.and_eq_true, Bool.and_eq_true]
          constructor
          · intro h0
            obtain ⟨hacc, hall⟩ := hiff.mp h0
            have := hm0.mp hacc
            rw [Bool.and_eq_true] at this
            exact ⟨this, hall⟩
          · intro hc
            apply hiff.mpr
            refine ⟨hm0.mpr ?_, hc.2⟩
            rw [Bool.and_eq_true]
            exact hc.1
      | vNull => cases hws.2
      | vBool b => cases hws.2
      | vInt n => cases hws.2
      | vStr s => cases hws.2
      | vDict d => cases hws.2
  | vNull => cases hws
  | vBool b => cases hws
  | vInt n => cases hws
  | vStr s => cases hws
  | vList l => cases hws

/-- Claim C6, counterexample: on an offer whose two segments both lack
an id, the validation reports only the first missing segment id, so
the error does not name exactly which fields are absent. -/
theorem c6_only_first_missing_segment_id_reported :
    confirmMissingFields exOfferTwoMissingIds =
      .ok ["itineraries[0].segments[0].id"] ∧
    getField exSegNoId1 "id" = none ∧
    getField exSegNoId2 "id" = none :=
  ⟨rfl, rfl, rfl⟩

/-- Claim C6, amended: before any pricing request, confirm_flight_price
validates the raw offer, and the computed missing-field list is empty
exactly when travelerPricings, source and an id on every segment are
all present; when something is missing the call returns the typed
invalid-format error carrying that list together with the fixed
guidance naming the raw_offers field as the one to supply, and no
pricing request is issued; the error names all missing top-level
fields but only the first missing segment id.  When nothing is missing
the sanitized offer is submitted for pricing. -/
theorem c6_confirm_validation_amended :
    ∀ offer, wellShapedOffer offer = true →
      ∃ m, confirmMissingFields offer = .ok m ∧
        (m = [] ↔ pricingFieldsPresent offer = true) ∧
        (m ≠ [] → confirm_flight_price offer =
          .ok (.invalidFormat m confirmDetailsText confirmSolutionText)) ∧
        (m = [] → ∃ s, confirm_flight_price offer =
          .ok (.pricingRequested s)) := by
  intro offer hws
  obtain ⟨m, hm, hiff⟩ := confirmMissingFields_spec offer hws
  refine ⟨m, hm, hiff, ?_, ?_⟩
  · intro hne
    rw [confirm_flight_price]
    simp only [hm]
    rw [if_pos hne]
  · intro he
    obtain ⟨out, hout, _⟩ := sanitize_offer_spec offer hws
    refine ⟨out, ?_⟩
    rw [confirm_flight_price]
    simp only [hm, hout]
    rw [if_neg (by simp [he])]

/-- Claim C6, witness: the offer with two id-less segments is well
shaped, its validation yields a non-empty missing-field list, and the
confirmation path returns the typed error without a pricing
request. -/
theorem c6_confirm_validation_amended_witness :
    wellShapedOffer exOfferTwoMissingIds = true ∧
    (∃ m, confirmMissingFields exOfferTwoMissingIds = .ok m ∧
      (m = [] ↔ pricingFieldsPresent exOfferTwoMissingIds = true) ∧
      (m ≠ [] → confirm_flight_price exOfferTwoMissingIds =
        .ok (.invalidFormat m confirmDetailsText confirmSolutionText)) ∧
      (m = [] → ∃ s, confirm_flight_price exOfferTwoMissingIds =
        .ok (.pricingRequested s))) :=
  ⟨by decide,
    c6_confirm_validation_amended exOfferTwoMissingIds (by decide)⟩

end FlightsMCP
